import Mathlib

/-!
A shallow embedding of the Leo compiler back end core: the dead code
elimination pass (`compiler/passes/src/dead_code_elimination/`), the code
generation pass (`compiler/passes/src/code_generation/visit_expressions.rs`),
the diagnostic handler (`errors/src/emitter/mod.rs`), and the record
commitment verifier (`state/src/record_commitment/record_commitment.rs`).

Rust `unreachable!`, `todo!`, panicking `unwrap` and error returns are
modelled with `Except`; interned symbols and emitted instruction text are
modelled as `String`; the shared AST node model (`leo_ast`) is translated
structurally, keeping only the fields this core reads.
-/

namespace Leo

/-- Interned symbols (`leo_span::Symbol`) are modelled by their textual form. -/
abbrev Sym := String

/-- The binary operators of `leo_ast::BinaryOperation`, as matched in
`visit_binary`. -/
inductive BinaryOperation where
  | add | addWrapped | and | bitwiseAnd | div | divWrapped | eq | gte | gt
  | lte | lt | mod | mul | mulWrapped | nand | neq | nor | or | bitwiseOr
  | pow | powWrapped | rem | remWrapped | shl | shlWrapped | shr | shrWrapped
  | sub | subWrapped | xor
  deriving Repr, DecidableEq

/-- The unary operators of `leo_ast::UnaryOperation`, as matched in
`visit_unary`. -/
inductive UnaryOperation where
  | abs | absWrapped | double | inverse | not | negate | square | squareRoot
  deriving Repr, DecidableEq

/-- The fragment of `leo_ast::Type` this core inspects: the unit type, tuple
types, and named (identifier) types; all other type forms behave like a named
type here and are subsumed by `identifier`. -/
inductive Ty where
  | unit
  | tuple (elements : List Ty)
  | identifier (name : Sym)
  deriving Repr

mutual

/-- The `leo_ast::Expression` tree, keeping the fields the two passes read.
A literal is represented by its textual form (code generation only ever
formats it with `Display`); spans are dropped. -/
inductive Expression where
  | access (a : AccessExpression)
  | binary (left right : Expression) (op : BinaryOperation)
  | call (function : Expression) (external : Option Sym)
      (arguments : List Expression)
  | struct (name : Sym) (members : List StructVariableInitializer)
  | err
  | identifier (name : Sym)
  | literal (text : String)
  | ternary (condition ifTrue ifFalse : Expression)
  | tuple (elements : List Expression)
  | unary (receiver : Expression) (op : UnaryOperation)
  | unit

/-- The `leo_ast::AccessExpression` variants matched by `visit_access`. -/
inductive AccessExpression where
  | member (inner : Expression) (name : Sym)
  | associatedConstant (ty : Ty) (name : Sym)
  | associatedFunction (ty : Ty) (name : Sym) (args : List Expression)
  | tupleAccess (tup : Expression) (index : Nat)

/-- A member of a struct construction expression
(`leo_ast::StructVariableInitializer`): an identifier with an optional
initializer expression. -/
inductive StructVariableInitializer where
  | mk (identifier : Sym) (expression : Option Expression)

end

/-- The `leo_ast::AssertVariant` of an assert statement. -/
inductive AssertVariant where
  | assert (e : Expression)
  | assertEq (left right : Expression)
  | assertNeq (left right : Expression)

/-- The `leo_ast::Statement` variants matched by the dead code eliminator.
The variants that are unreachable at this phase (conditional, console,
definition, iteration) carry no payload because the pass fails on them
without reading any field. -/
inductive Statement where
  | assert (variant : AssertVariant)
  | assign (place value : Expression)
  | block (statements : List Statement)
  | conditional
  | console
  | decrement (mapping : Sym) (index amount : Expression)
  | definition
  | expression (e : Expression)
  | increment (mapping : Sym) (index amount : Expression)
  | iteration
  | ret (expression : Expression) (finalizeArguments : Option (List Expression))

/-- Modelled from the spec: `leo_ast`'s `Statement::dummy`, the no-op
placeholder statement (an empty block) that replaces an eliminated
assignment; `leo_ast` itself is not among the sources under verification,
and the spec describes the replacement as "a no-op placeholder statement
that carries no instructions forward". -/
def Statement.dummy : Statement := .block []

/-- The state of the `DeadCodeEliminator` pass: the liveness set
`used_variables` (an `IndexSet<Symbol>`, modelled as a duplicate-free list
used only through membership) and the transient `is_necessary` flag. -/
structure DeadCodeEliminator where
  usedVariables : List Sym
  isNecessary : Bool
  deriving Repr

/-- A fresh eliminator: empty liveness set, necessity flag unset. -/
def DeadCodeEliminator.new : DeadCodeEliminator :=
  { usedVariables := [], isNecessary := false }

/-- The panic paths of the dead code elimination pass (`unreachable!` in the
source), modelled as errors. -/
inductive DceError where
  | unreachableStatement (kind : String)
  | malformedAssignPlace
  | missingStructMemberExpression
  | nonCallExpressionStatement
  deriving Repr, DecidableEq

/-- Rust `IndexSet::insert`: add a symbol to the liveness set if not yet present. -/
def insertUsed (used : List Sym) (x : Sym) : List Sym :=
  if x ∈ used then used else x :: used

/-- Rust `reconstruct_identifier` (eliminate_expression.rs): if the `is_necessary`
flag is set, record the identifier in `used_variables`; return the identifier
unchanged. -/
def reconstructIdentifier (s : DeadCodeEliminator) (input : Sym) :
    Expression × DeadCodeEliminator :=
  if s.isNecessary then
    (.identifier input, { s with usedVariables := insertUsed s.usedVariables input })
  else
    (.identifier input, s)

mutual

/-- The expression walk of the dead code eliminator: the overridden
`reconstruct_identifier` and `reconstruct_struct_init` from
eliminate_expression.rs, together with the default `ExpressionReconstructor`
methods of `leo_ast` (modelled from the spec, §3/§4.2: the defaults rebuild
each variant, recursing into every sub-expression left to right and leaving
leaves unchanged; `reconstruct_call` rebuilds the callee expression and then
each argument). -/
def reconstructExpression (e : Expression) (s : DeadCodeEliminator) :
    Except DceError (Expression × DeadCodeEliminator) :=
  match e with
  | .access a =>
    match a with
    | .member inner name =>
      match reconstructExpression inner s with
      | .error err => .error err
      | .ok (inner', s) => .ok (.access (.member inner' name), s)
    | .associatedConstant ty name => .ok (.access (.associatedConstant ty name), s)
    | .associatedFunction ty name args =>
      match reconstructExpressionList args s with
      | .error err => .error err
      | .ok (args', s) => .ok (.access (.associatedFunction ty name args'), s)
    | .tupleAccess tup index =>
      match reconstructExpression tup s with
      | .error err => .error err
      | .ok (tup', s) => .ok (.access (.tupleAccess tup' index), s)
  | .binary left right op =>
    match reconstructExpression left s with
    | .error err => .error err
    | .ok (left', s) =>
      match reconstructExpression right s with
      | .error err => .error err
      | .ok (right', s) => .ok (.binary left' right' op, s)
  | .call function external arguments =>
    match reconstructExpression function s with
    | .error err => .error err
    | .ok (function', s) =>
      match reconstructExpressionList arguments s with
      | .error err => .error err
      | .ok (arguments', s) => .ok (.call function' external arguments', s)
  | .struct name members =>
    -- reconstruct_struct_init (eliminate_expression.rs): rebuild every member,
    -- visiting each member's initializer expression.
    match reconstructMembers members s with
    | .error err => .error err
    | .ok (members', s) => .ok (.struct name members', s)
  | .err => .ok (.err, s)
  | .identifier x => .ok (reconstructIdentifier s x)
  | .literal text => .ok (.literal text, s)
  | .ternary condition ifTrue ifFalse =>
    match reconstructExpression condition s with
    | .error err => .error err
    | .ok (condition', s) =>
      match reconstructExpression ifTrue s with
      | .error err => .error err
      | .ok (ifTrue', s) =>
        match reconstructExpression ifFalse s with
        | .error err => .error err
        | .ok (ifFalse', s) => .ok (.ternary condition' ifTrue' ifFalse', s)
  | .tuple elements =>
    match reconstructExpressionList elements s with
    | .error err => .error err
    | .ok (elements', s) => .ok (.tuple elements', s)
  | .unary receiver op =>
    match reconstructExpression receiver s with
    | .error err => .error err
    | .ok (receiver', s) => .ok (.unary receiver' op, s)
  | .unit => .ok (.unit, s)

/-- Reconstruct a list of expressions in order (the `map`/`collect` loops of
the default reconstructor methods). -/
def reconstructExpressionList (es : List Expression) (s : DeadCodeEliminator) :
    Except DceError (List Expression × DeadCodeEliminator) :=
  match es with
  | [] => .ok ([], s)
  | e :: rest =>
    match reconstructExpression e s with
    | .error err => .error err
    | .ok (e', s) =>
      match reconstructExpressionList rest s with
      | .error err => .error err
      | .ok (rest', s) => .ok (e' :: rest', s)

/-- The member loop of `reconstruct_struct_init` (eliminate_expression.rs):
each member keeps its identifier and must carry an initializer expression
(`unreachable!` otherwise), which is reconstructed. -/
def reconstructMembers (ms : List StructVariableInitializer) (s : DeadCodeEliminator) :
    Except DceError (List StructVariableInitializer × DeadCodeEliminator) :=
  match ms with
  | [] => .ok ([], s)
  | .mk _ none :: _ => .error .missingStructMemberExpression
  | .mk ident (some e) :: rest =>
    match reconstructExpression e s with
    | .error err => .error err
    | .ok (e', s) =>
      match reconstructMembers rest s with
      | .error err => .error err
      | .ok (rest', s) => .ok (.mk ident (some e') :: rest', s)

end

/-- Rust `reconstruct_assert` (eliminate_statement.rs): set the `is_necessary`
flag, reconstruct the asserted expressions, unset the flag. -/
def reconstructAssert (input : AssertVariant) (s : DeadCodeEliminator) :
    Except DceError (Statement × DeadCodeEliminator) :=
  let s := { s with isNecessary := true }
  match input with
  | .assert e =>
    match reconstructExpression e s with
    | .error err => .error err
    | .ok (e', s) => .ok (.assert (.assert e'), { s with isNecessary := false })
  | .assertEq left right =>
    match reconstructExpression left s with
    | .error err => .error err
    | .ok (left', s) =>
      match reconstructExpression right s with
      | .error err => .error err
      | .ok (right', s) =>
        .ok (.assert (.assertEq left' right'), { s with isNecessary := false })
  | .assertNeq left right =>
    match reconstructExpression left s with
    | .error err => .error err
    | .ok (left', s) =>
      match reconstructExpression right s with
      | .error err => .error err
      | .ok (right', s) =>
        .ok (.assert (.assertNeq left' right'), { s with isNecessary := false })

/-- The tuple arm of the `lhs_is_used` check in `reconstruct_assign`: the
source maps each element to its identifier symbol (`unreachable!` on any
other expression) and tests `any` over the lazily mapped iterator, so a
non-identifier element is only reached (and only panics) if no earlier
element was found live. -/
def lhsIsUsedTuple (s : DeadCodeEliminator) :
    List Expression → Except DceError Bool
  | [] => .ok false
  | .identifier x :: rest =>
    if x ∈ s.usedVariables then .ok true else lhsIsUsedTuple s rest
  | _ :: _ => .error .malformedAssignPlace

/-- Rust `reconstruct_assign` (eliminate_statement.rs): keep the assignment (and
reconstruct its right-hand side with the necessity flag set) when some
left-hand identifier is in `used_variables`; otherwise replace it with the
dummy statement. -/
def reconstructAssign (place value : Expression) (s : DeadCodeEliminator) :
    Except DceError (Statement × DeadCodeEliminator) :=
  let lhsIsUsed : Except DceError Bool :=
    match place with
    | .identifier x => .ok (decide (x ∈ s.usedVariables))
    | .tuple elements => lhsIsUsedTuple s elements
    | _ => .error .malformedAssignPlace
  match lhsIsUsed with
  | .error err => .error err
  | .ok true =>
    let s := { s with isNecessary := true }
    match reconstructExpression value s with
    | .error err => .error err
    | .ok (value', s) => .ok (.assign place value', { s with isNecessary := false })
  | .ok false => .ok (Statement.dummy, s)

/-- Rust `reconstruct_decrement` (eliminate_statement.rs). -/
def reconstructDecrement (mapping : Sym) (index amount : Expression)
    (s : DeadCodeEliminator) : Except DceError (Statement × DeadCodeEliminator) :=
  let s := { s with isNecessary := true }
  match reconstructExpression index s with
  | .error err => .error err
  | .ok (index', s) =>
    match reconstructExpression amount s with
    | .error err => .error err
    | .ok (amount', s) =>
      .ok (.decrement mapping index' amount', { s with isNecessary := false })

/-- Rust `reconstruct_increment` (eliminate_statement.rs). -/
def reconstructIncrement (mapping : Sym) (index amount : Expression)
    (s : DeadCodeEliminator) : Except DceError (Statement × DeadCodeEliminator) :=
  let s := { s with isNecessary := true }
  match reconstructExpression index s with
  | .error err => .error err
  | .ok (index', s) =>
    match reconstructExpression amount s with
    | .error err => .error err
    | .ok (amount', s) =>
      .ok (.increment mapping index' amount', { s with isNecessary := false })

/-- Rust `reconstruct_expression_statement` (eliminate_statement.rs): only call
expressions are legal; set the flag, reconstruct the call, unset the flag. -/
def reconstructExpressionStatement (e : Expression) (s : DeadCodeEliminator) :
    Except DceError (Statement × DeadCodeEliminator) :=
  match e with
  | .call function external arguments =>
    let s := { s with isNecessary := true }
    -- self.reconstruct_call(expression): the default reconstruct_call is the
    -- call arm of reconstructExpression.
    match reconstructExpression (.call function external arguments) s with
    | .error err => .error err
    | .ok (e', s) => .ok (.expression e', { s with isNecessary := false })
  | _ => .error .nonCallExpressionStatement

/-- Rust `reconstruct_return` (eliminate_statement.rs): set the flag, reconstruct
the returned expression and then each finalize argument, unset the flag. -/
def reconstructReturn (e : Expression) (finalizeArguments : Option (List Expression))
    (s : DeadCodeEliminator) : Except DceError (Statement × DeadCodeEliminator) :=
  let s := { s with isNecessary := true }
  match reconstructExpression e s with
  | .error err => .error err
  | .ok (e', s) =>
    match finalizeArguments with
    | none => .ok (.ret e' none, { s with isNecessary := false })
    | some args =>
      match reconstructExpressionList args s with
      | .error err => .error err
      | .ok (args', s) => .ok (.ret e' (some args'), { s with isNecessary := false })

mutual

/-- The statement dispatch of `StatementReconstructor` specialised to the
dead code eliminator; the dispatch itself is the trait's default
(modelled from the spec, §4.2 statement classification), each arm is the
override in eliminate_statement.rs. -/
def reconstructStatement (st : Statement) (s : DeadCodeEliminator) :
    Except DceError (Statement × DeadCodeEliminator) :=
  match st with
  | .assert variant => reconstructAssert variant s
  | .assign place value => reconstructAssign place value s
  | .block statements =>
    -- reconstruct_block (eliminate_statement.rs): reconstruct the statements
    -- in reverse order, then reverse the result back.  The two reversals are
    -- fused into the right-to-left walk reconstructStatementsRev; the
    -- theorem reconstructStatementsRev_spec equates it with the literal
    -- reverse/map/reverse composition reconstructBlock below.
    match reconstructStatementsRev statements s with
    | .error err => .error err
    | .ok (statements', s) => .ok (.block statements', s)
  | .conditional => .error (.unreachableStatement "conditional")
  | .console => .error (.unreachableStatement "console")
  | .decrement mapping index amount => reconstructDecrement mapping index amount s
  | .definition => .error (.unreachableStatement "definition")
  | .expression e => reconstructExpressionStatement e s
  | .increment mapping index amount => reconstructIncrement mapping index amount s
  | .iteration => .error (.unreachableStatement "iteration")
  | .ret e finalizeArguments => reconstructReturn e finalizeArguments s

/-- Walk a statement list back to front (last statement first), producing the
reconstructed list in original textual order. -/
def reconstructStatementsRev (stmts : List Statement) (s : DeadCodeEliminator) :
    Except DceError (List Statement × DeadCodeEliminator) :=
  match stmts with
  | [] => .ok ([], s)
  | st :: rest =>
    match reconstructStatementsRev rest s with
    | .error err => .error err
    | .ok (rest', s) =>
      match reconstructStatement st s with
      | .error err => .error err
      | .ok (st', s) => .ok (st' :: rest', s)

end

/-- The front-to-back statement walk: the stateful `map`/`collect` loop of
`reconstruct_block` applied to an (already reversed) statement list. -/
def reconstructStatementsFwd (stmts : List Statement) (s : DeadCodeEliminator) :
    Except DceError (List Statement × DeadCodeEliminator) :=
  match stmts with
  | [] => .ok ([], s)
  | st :: rest =>
    match reconstructStatement st s with
    | .error err => .error err
    | .ok (st', s) =>
      match reconstructStatementsFwd rest s with
      | .error err => .error err
      | .ok (rest', s) => .ok (st' :: rest', s)

/-- Rust `reconstruct_block` (eliminate_statement.rs), literally: reconstruct each
statement of the reversed list in order, then reverse the result back. -/
def reconstructBlock (statements : List Statement) (s : DeadCodeEliminator) :
    Except DceError (List Statement × DeadCodeEliminator) :=
  match reconstructStatementsFwd statements.reverse s with
  | .error err => .error err
  | .ok (statements', s) => .ok (statements'.reverse, s)

/-- Appending to the front-to-back walk splits into two walks. -/
theorem reconstructStatementsFwd_append (l₁ l₂ : List Statement)
    (s : DeadCodeEliminator) :
    reconstructStatementsFwd (l₁ ++ l₂) s =
      match reconstructStatementsFwd l₁ s with
      | .error err => .error err
      | .ok (l₁', s) =>
        match reconstructStatementsFwd l₂ s with
        | .error err => .error err
        | .ok (l₂', s) => .ok (l₁' ++ l₂', s) := by
  induction l₁ generalizing s with
  | nil =>
    simp only [List.nil_append, reconstructStatementsFwd]
    cases reconstructStatementsFwd l₂ s with
    | error err => rfl
    | ok p => obtain ⟨l₂', s₁⟩ := p; rfl
  | cons st rest ih =>
    simp only [List.cons_append, reconstructStatementsFwd]
    cases reconstructStatement st s with
    | error err => rfl
    | ok p =>
      obtain ⟨st', s₁⟩ := p
      simp only [List.append_eq]
      rw [ih s₁]
      cases reconstructStatementsFwd rest s₁ with
      | error err => rfl
      | ok q =>
        obtain ⟨rest', s₂⟩ := q
        dsimp only
        cases reconstructStatementsFwd l₂ s₂ with
        | error err => rfl
        | ok r => obtain ⟨l₂', s₃⟩ := r; rfl

/-- The fused right-to-left walk computes exactly the literal
`reconstruct_block` composition: reverse the list, walk it front to back,
reverse the result. -/
theorem reconstructStatementsRev_spec (stmts : List Statement)
    (s : DeadCodeEliminator) :
    reconstructStatementsRev stmts s = reconstructBlock stmts s := by
  induction stmts generalizing s with
  | nil => simp [reconstructStatementsRev, reconstructBlock, reconstructStatementsFwd]
  | cons st rest ih =>
    simp only [reconstructStatementsRev, reconstructBlock, List.reverse_cons]
    rw [reconstructStatementsFwd_append, ih s]
    simp only [reconstructBlock]
    cases reconstructStatementsFwd rest.reverse s with
    | error err => rfl
    | ok p =>
      obtain ⟨rest', s₁⟩ := p
      simp only [reconstructStatementsFwd]
      cases reconstructStatement st s₁ with
      | error err => rfl
      | ok q =>
        obtain ⟨st', s₂⟩ := q
        simp [List.reverse_append]

/-- Modelled from the spec: the pass entry point for one flattened function
body (§6: "Input to Dead Code Eliminator: a flattened, SSA-form function
body"); the surrounding program walk (eliminate_program.rs, absent from the
sources) hands each function body to `reconstruct_block` with a fresh
liveness set. -/
def eliminateFunctionBody (statements : List Statement) :
    Except DceError (List Statement) :=
  match reconstructBlock statements DeadCodeEliminator.new with
  | .error err => .error err
  | .ok (statements', _) => .ok statements'

/-- The state of one `CodeGenerator` invocation (visit_expressions.rs): the
register counter `next_register`, the read-only name-to-storage map
`variable_mapping`, the composite table `composite_mapping` (name to
`(is_record, visibility)`), and the symbol table's function-to-output-type
map.  The extra field `issued` is ghost instrumentation absent from the
source: it records each destination register index at the moment the source
formats `r{next_register}`, so that the issuance order can be stated. -/
structure CodeGenerator where
  nextRegister : Nat
  variableMapping : List (Sym × String)
  compositeMapping : List (Sym × (Bool × String))
  functions : List (Sym × Ty)
  issued : List Nat

/-- A fresh code generator state for one function body: numbering restarts
from zero (§5), with the given read-only tables. -/
def CodeGenerator.fresh (variableMapping : List (Sym × String))
    (compositeMapping : List (Sym × (Bool × String)))
    (functions : List (Sym × Ty)) : CodeGenerator :=
  { nextRegister := 0, variableMapping := variableMapping,
    compositeMapping := compositeMapping, functions := functions, issued := [] }

/-- The panic paths of the code generation pass (`unreachable!`, `todo!` and
panicking `unwrap` in visit_expressions.rs), modelled as errors. -/
inductive CgError where
  | unmappedIdentifier (name : Sym)
  | errExpression
  | unitExpression
  | unknownComposite (name : Sym)
  | unknownCoreFunction
  | unknownCallee (name : Sym)
  | invalidTupleLength (len : Nat)
  | associatedConstantUnsupported
  | tupleAccessUnsupported
  deriving Repr, DecidableEq

/-- The opcode table of `visit_binary`. -/
def binaryOpcode : BinaryOperation → String
  | .add => "add"
  | .addWrapped => "add.w"
  | .and => "and"
  | .bitwiseAnd => "and"
  | .div => "div"
  | .divWrapped => "div.w"
  | .eq => "is.eq"
  | .gte => "gte"
  | .gt => "gt"
  | .lte => "lte"
  | .lt => "lt"
  | .mod => "mod"
  | .mul => "mul"
  | .mulWrapped => "mul.w"
  | .nand => "nand"
  | .neq => "is.neq"
  | .nor => "nor"
  | .or => "or"
  | .bitwiseOr => "or"
  | .pow => "pow"
  | .powWrapped => "pow.w"
  | .rem => "rem"
  | .remWrapped => "rem.w"
  | .shl => "shl"
  | .shlWrapped => "shl.w"
  | .shr => "shr"
  | .shrWrapped => "shr.w"
  | .sub => "sub"
  | .subWrapped => "sub.w"
  | .xor => "xor"

/-- The opcode table of `visit_unary`. -/
def unaryOpcode : UnaryOperation → String
  | .abs => "abs"
  | .absWrapped => "abs.w"
  | .double => "double"
  | .inverse => "inv"
  | .not => "not"
  | .negate => "neg"
  | .square => "square"
  | .squareRoot => "sqrt"

/-- The intrinsic opcode table of `visit_associated_function`: the closed set
of recognized core type names (`leo_span::sym` constants) and their opcode
suffixes. -/
def coreFunctionSymbol : Sym → Option String
  | "BHP256" => some "bhp256"
  | "BHP512" => some "bhp512"
  | "BHP768" => some "bhp768"
  | "BHP1024" => some "bhp1024"
  | "Pedersen64" => some "ped64"
  | "Pedersen128" => some "ped128"
  | "Poseidon2" => some "psd2"
  | "Poseidon4" => some "psd4"
  | "Poseidon8" => some "psd8"
  | _ => none

/-- Format the destination register `r{next_register}` and advance the
counter (`self.next_register += 1`).  The ghost field `issued` records the
allocated index. -/
def allocRegister (st : CodeGenerator) : String × CodeGenerator :=
  ("r" ++ toString st.nextRegister,
   { st with nextRegister := st.nextRegister + 1,
             issued := st.issued ++ [st.nextRegister] })

/-- The destination loop of the tuple-output arm of `visit_call`:
`for _ in 0..len` push `r{next_register}` and increment the counter. -/
def allocRegisterLoop (len : Nat) (st : CodeGenerator) :
    List String × CodeGenerator :=
  match len with
  | 0 => ([], st)
  | n + 1 =>
    let (destinationRegister, st) := allocRegister st
    let (rest, st) := allocRegisterLoop n st
    (destinationRegister :: rest, st)

mutual

/-- Rust `visit_expression` of visit_expressions.rs together with the per-variant
visitors it dispatches to; each arm carries the name of the source method it
translates.  Returns the value reference and the prelude instruction text. -/
def visitExpression (input : Expression) (st : CodeGenerator) :
    Except CgError ((String × String) × CodeGenerator) :=
  match input with
  | .access a =>
    -- visit_access
    match a with
    | .member inner name =>
      -- visit_member_access: the base expression is lowered, but its prelude
      -- instructions are discarded; only the advanced state is kept.
      match visitExpression inner st with
      | .error e => .error e
      | .ok ((innerStruct, _innerInstructions), st) =>
        .ok ((innerStruct ++ "." ++ name, ""), st)
    | .associatedConstant _ _ =>
      -- visit_access: associated constants are not supported yet (todo!).
      .error .associatedConstantUnsupported
    | .associatedFunction ty name args =>
      -- visit_associated_function
      match (match ty with
             | .identifier tyName => coreFunctionSymbol tyName
             | _ => none) with
      | none => .error .unknownCoreFunction
      | some symbol =>
        match visitExpressionList args st with
        | .error e => .error e
        | .ok ((argOperands, instructions), st) =>
          let (destinationRegister, st) := allocRegister st
          let associatedFunctionCall :=
            "    " ++ name ++ "." ++ symbol ++ " " ++
              String.join (argOperands.map (fun arg => arg ++ " ")) ++
              "into " ++ destinationRegister ++ ";\n"
          .ok ((destinationRegister, instructions ++ associatedFunctionCall), st)
    | .tupleAccess _ _ =>
      -- visit_access: tuple member access is not supported yet (todo!).
      .error .tupleAccessUnsupported
  | .binary left right op =>
    -- visit_binary
    match visitExpression left st with
    | .error e => .error e
    | .ok ((leftOperand, leftInstructions), st) =>
      match visitExpression right st with
      | .error e => .error e
      | .ok ((rightOperand, rightInstructions), st) =>
        let opcode := binaryOpcode op
        let (destinationRegister, st) := allocRegister st
        let binaryInstruction :=
          "    " ++ opcode ++ " " ++ leftOperand ++ " " ++ rightOperand ++
            " into " ++ destinationRegister ++ ";\n"
        .ok ((destinationRegister,
              leftInstructions ++ rightInstructions ++ binaryInstruction), st)
  | .call function external arguments =>
    -- visit_call.  The callee must be an identifier: the source's later
    -- `input.function.borrow()` match panics otherwise before any result is
    -- produced, so the extraction is hoisted in front of the string building.
    match function with
    | .identifier functionName =>
      let callInstruction :=
        match external with
        | some ext => "    call " ++ ext ++ ".aleo/" ++ functionName
        | none => "    call " ++ functionName
      match visitExpressionList arguments st with
      | .error e => .error e
      | .ok ((argumentOperands, instructions), st) =>
        let callInstruction :=
          callInstruction ++
            String.join (argumentOperands.map (fun arg => " " ++ arg))
        match st.functions.lookup functionName with
        | none => .error (.unknownCallee functionName)
        | some returnType =>
          match returnType with
          | .unit =>
            .ok (("", instructions ++ callInstruction ++ ";"), st)
          | .tuple tup =>
            match tup.length with
            | 0 => .error (.invalidTupleLength 0)
            | 1 => .error (.invalidTupleLength 1)
            | len =>
              let (destinations, st) := allocRegisterLoop len st
              let destinationsJoined := String.intercalate " " destinations
              let callInstruction :=
                callInstruction ++ " into " ++ destinationsJoined ++ ";\n"
              .ok ((destinationsJoined, instructions ++ callInstruction), st)
          | .identifier _ =>
            let (destinationRegister, st) := allocRegister st
            let callInstruction :=
              callInstruction ++ " into " ++ destinationRegister ++ ";\n"
            .ok ((destinationRegister, instructions ++ callInstruction), st)
    | _ => .error .unknownCoreFunction
  | .struct name members =>
    -- visit_struct_init
    match st.compositeMapping.lookup name with
    | none => .error (.unknownComposite name)
    | some (isRecord, visibility) =>
      let typeName := if isRecord then name ++ "." ++ visibility else name
      match visitStructMembers members st with
      | .error e => .error e
      | .ok ((operands, instructions), st) =>
        let (destinationRegister, st) := allocRegister st
        let structInitInstruction :=
          "    cast " ++ String.join (operands.map (fun operand => operand ++ " ")) ++
            "into " ++ destinationRegister ++ " as " ++ typeName ++ ";\n"
        .ok ((destinationRegister, instructions ++ structInitInstruction), st)
  | .err =>
    -- visit_err: unreachable at this phase.
    .error .errExpression
  | .identifier name =>
    -- visit_identifier: variable_mapping lookup, panicking unwrap if absent.
    match st.variableMapping.lookup name with
    | none => .error (.unmappedIdentifier name)
    | some operand => .ok ((operand, ""), st)
  | .literal text =>
    -- visit_value: the literal's textual form, no instructions.
    .ok ((text, ""), st)
  | .ternary condition ifTrue ifFalse =>
    -- visit_ternary
    match visitExpression condition st with
    | .error e => .error e
    | .ok ((conditionOperand, conditionInstructions), st) =>
      match visitExpression ifTrue st with
      | .error e => .error e
      | .ok ((ifTrueOperand, ifTrueInstructions), st) =>
        match visitExpression ifFalse st with
        | .error e => .error e
        | .ok ((ifFalseOperand, ifFalseInstructions), st) =>
          let (destinationRegister, st) := allocRegister st
          let ternaryInstruction :=
            "    ternary " ++ conditionOperand ++ " " ++ ifTrueOperand ++ " " ++
              ifFalseOperand ++ " into " ++ destinationRegister ++ ";\n"
          .ok ((destinationRegister,
                conditionInstructions ++ ifTrueInstructions ++
                  ifFalseInstructions ++ ternaryInstruction), st)
  | .tuple elements =>
    -- visit_tuple: space-join the element references; no register allocated.
    match visitExpressionList elements st with
    | .error e => .error e
    | .ok ((tupleElements, instructions), st) =>
      .ok ((String.intercalate " " tupleElements, instructions), st)
  | .unary receiver op =>
    -- visit_unary
    match visitExpression receiver st with
    | .error e => .error e
    | .ok ((expressionOperand, expressionInstructions), st) =>
      let opcode := unaryOpcode op
      let (destinationRegister, st) := allocRegister st
      let unaryInstruction :=
        "    " ++ opcode ++ " " ++ expressionOperand ++ " into " ++
          destinationRegister ++ ";\n"
      .ok ((destinationRegister, expressionInstructions ++ unaryInstruction), st)
  | .unit =>
    -- visit_unit: unreachable at this phase.
    .error .unitExpression

/-- The left-to-right operand loops of visit_expressions.rs: lower each
expression in order, collecting the value references and concatenating the
prelude instructions in issuance order. -/
def visitExpressionList (es : List Expression) (st : CodeGenerator) :
    Except CgError ((List String × String) × CodeGenerator) :=
  match es with
  | [] => .ok (([], ""), st)
  | e :: rest =>
    match visitExpression e st with
    | .error err => .error err
    | .ok ((operand, operandInstructions), st) =>
      match visitExpressionList rest st with
      | .error err => .error err
      | .ok ((operands, restInstructions), st) =>
        .ok ((operand :: operands, operandInstructions ++ restInstructions), st)

/-- The member loop of `visit_struct_init`: each member's operand comes from
lowering its initializer expression, or from `visit_identifier` on the member
identifier for shorthand members. -/
def visitStructMembers (ms : List StructVariableInitializer)
    (st : CodeGenerator) :
    Except CgError ((List String × String) × CodeGenerator) :=
  match ms with
  | [] => .ok (([], ""), st)
  | .mk identifier expression :: rest =>
    match (match expression with
           | some expr => visitExpression expr st
           | none =>
             match st.variableMapping.lookup identifier with
             | none => .error (.unmappedIdentifier identifier)
             | some operand => .ok ((operand, ""), st)) with
    | .error err => .error err
    | .ok ((operand, operandInstructions), st) =>
      match visitStructMembers rest st with
      | .error err => .error err
      | .ok ((operands, restInstructions), st) =>
        .ok ((operand :: operands, operandInstructions ++ restInstructions), st)

end

/-- The register issuance discipline relating the states before and after one
visit: the counter advances by some `k ≥ 0`, and the issuance trace is
extended by exactly the consecutive block of `k` register indices starting at
the old counter value (strictly increasing, gap-free, never reused). -/
def RegExtends (st st' : CodeGenerator) : Prop :=
  ∃ k, st'.nextRegister = st.nextRegister + k ∧
       st'.issued = st.issued ++ List.range' st.nextRegister k

theorem regExtends_refl (st : CodeGenerator) : RegExtends st st :=
  ⟨0, rfl, by simp⟩

theorem regExtends_of_eq {st st' : CodeGenerator} (h : st' = st) :
    RegExtends st st' := h ▸ regExtends_refl st

theorem regExtends_trans {st₁ st₂ st₃ : CodeGenerator}
    (h₁ : RegExtends st₁ st₂) (h₂ : RegExtends st₂ st₃) : RegExtends st₁ st₃ := by
  obtain ⟨k₁, hn₁, hi₁⟩ := h₁
  obtain ⟨k₂, hn₂, hi₂⟩ := h₂
  refine ⟨k₁ + k₂, by omega, ?_⟩
  rw [hi₂, hi₁, hn₁, List.append_assoc, List.range'_append_1, Nat.add_comm k₂ k₁]

theorem allocRegister_extends (st : CodeGenerator) :
    RegExtends st (allocRegister st).2 :=
  ⟨1, rfl, by simp [allocRegister]⟩

theorem allocRegisterLoop_extends (len : Nat) :
    ∀ st : CodeGenerator, RegExtends st (allocRegisterLoop len st).2 := by
  induction len with
  | zero => intro st; exact regExtends_refl st
  | succ n ih =>
    intro st
    have h₁ := allocRegister_extends st
    have h₂ := ih (allocRegister st).2
    simpa [allocRegisterLoop] using regExtends_trans h₁ h₂

/-- The destinations produced by the tuple-output loop are exactly the
formatted consecutive register indices starting at the current counter. -/
theorem allocRegisterLoop_names (len : Nat) :
    ∀ st : CodeGenerator,
      (allocRegisterLoop len st).1 =
        (List.range' st.nextRegister len).map (fun n => "r" ++ toString n) := by
  induction len with
  | zero => intro st; simp [allocRegisterLoop]
  | succ n ih =>
    intro st
    simp [allocRegisterLoop, allocRegister, List.range'_succ, ih]

mutual

/-- Every expression visit observes the register issuance discipline: the
counter never decreases and the destinations issued during the visit form
the consecutive block from the entry counter to the exit counter. -/
theorem visitExpression_extends : ∀ (e : Expression) (st : CodeGenerator)
    (out : String × String) (st' : CodeGenerator),
    visitExpression e st = .ok (out, st') → RegExtends st st'
  | .access (.member inner name), st, out, st', h => by
    simp only [visitExpression] at h
    cases h₁ : visitExpression inner st with
    | error e => simp [h₁] at h
    | ok p =>
      obtain ⟨⟨innerStruct, innerInstructions⟩, st₁⟩ := p
      rw [h₁] at h
      try dsimp only at h
      injection h with h'
      injection h' with h₅ h₆
      subst h₆
      exact visitExpression_extends inner st _ st₁ h₁
  | .access (.associatedConstant ty name), st, out, st', h => by
    simp [visitExpression] at h
  | .access (.associatedFunction ty name args), st, out, st', h => by
    simp only [visitExpression] at h
    cases ty with
    | identifier tyName =>
      try dsimp only at h
      cases hsym : coreFunctionSymbol tyName with
      | none => simp [hsym] at h
      | some symbol =>
        rw [hsym] at h
        try dsimp only at h
        cases h₁ : visitExpressionList args st with
        | error e => simp [h₁] at h
        | ok p =>
          obtain ⟨⟨argOperands, instructions⟩, st₁⟩ := p
          rw [h₁] at h
          dsimp only [allocRegister] at h
          injection h with h'
          injection h' with h₅ h₆
          subst h₆
          exact regExtends_trans (visitExpressionList_extends args st _ st₁ h₁)
            (allocRegister_extends st₁)
    | unit => simp [visitExpression] at h
    | tuple ts => simp [visitExpression] at h
  | .access (.tupleAccess tup index), st, out, st', h => by
    simp [visitExpression] at h
  | .binary left right op, st, out, st', h => by
    simp only [visitExpression] at h
    cases h₁ : visitExpression left st with
    | error e => simp [h₁] at h
    | ok p =>
      obtain ⟨⟨leftOperand, leftInstructions⟩, st₁⟩ := p
      rw [h₁] at h
      try dsimp only at h
      cases h₂ : visitExpression right st₁ with
      | error e => simp [h₂] at h
      | ok q =>
        obtain ⟨⟨rightOperand, rightInstructions⟩, st₂⟩ := q
        rw [h₂] at h
        dsimp only [allocRegister] at h
        injection h with h'
        injection h' with h₅ h₆
        subst h₆
        exact regExtends_trans (visitExpression_extends left st _ st₁ h₁)
          (regExtends_trans (visitExpression_extends right st₁ _ st₂ h₂)
            (allocRegister_extends st₂))
  | .call function external arguments, st, out, st', h => by
    simp only [visitExpression] at h
    cases function with
    | identifier functionName =>
      try dsimp only at h
      cases h₁ : visitExpressionList arguments st with
      | error e => simp [h₁] at h
      | ok p =>
        obtain ⟨⟨argumentOperands, instructions⟩, st₁⟩ := p
        rw [h₁] at h
        try dsimp only at h
        cases h₂ : List.lookup functionName st₁.functions with
        | none => simp [h₂] at h
        | some returnType =>
          rw [h₂] at h
          try dsimp only at h
          refine regExtends_trans (visitExpressionList_extends arguments st _ st₁ h₁) ?_
          cases returnType with
          | unit =>
            injection h with h'
            injection h' with h₅ h₆
            subst h₆
            exact regExtends_refl st₁
          | tuple tup =>
            try dsimp only at h
            cases hlen : tup.length with
            | zero => simp [hlen] at h
            | succ n =>
              cases n with
              | zero => simp [hlen] at h
              | succ m =>
                have hform : tup.length = Nat.succ (Nat.succ m) := hlen
                rw [hform] at h
                try dsimp only at h
                injection h with h'
                injection h' with h₅ h₆
                subst h₆
                exact allocRegisterLoop_extends _ st₁
          | identifier tyName =>
            dsimp only [allocRegister] at h
            injection h with h'
            injection h' with h₅ h₆
            subst h₆
            exact allocRegister_extends st₁
    | access a => simp at h
    | binary l r op => simp at h
    | call f ext args => simp at h
    | struct n m => simp at h
    | err => simp at h
    | literal t => simp at h
    | ternary c t f => simp at h
    | tuple es => simp at h
    | unary r op => simp at h
    | unit => simp at h
  | .struct name members, st, out, st', h => by
    simp only [visitExpression] at h
    cases h₀ : List.lookup name st.compositeMapping with
    | none => simp [h₀] at h
    | some p =>
      obtain ⟨isRecord, visibility⟩ := p
      rw [h₀] at h
      try dsimp only at h
      cases h₁ : visitStructMembers members st with
      | error e => simp [h₁] at h
      | ok q =>
        obtain ⟨⟨operands, instructions⟩, st₁⟩ := q
        rw [h₁] at h
        dsimp only [allocRegister] at h
        injection h with h'
        injection h' with h₅ h₆
        subst h₆
        exact regExtends_trans (visitStructMembers_extends members st _ st₁ h₁)
          (allocRegister_extends st₁)
  | .err, st, out, st', h => by simp [visitExpression] at h
  | .identifier name, st, out, st', h => by
    simp only [visitExpression] at h
    cases h₀ : List.lookup name st.variableMapping with
    | none => simp [h₀] at h
    | some operand =>
      rw [h₀] at h
      try dsimp only at h
      injection h with h'
      injection h' with h₅ h₆
      subst h₆
      exact regExtends_refl st
  | .literal text, st, out, st', h => by
    simp only [visitExpression] at h
    injection h with h'
    injection h' with h₅ h₆
    subst h₆
    exact regExtends_refl st
  | .ternary condition ifTrue ifFalse, st, out, st', h => by
    simp only [visitExpression] at h
    cases h₁ : visitExpression condition st with
    | error e => simp [h₁] at h
    | ok p =>
      obtain ⟨⟨conditionOperand, conditionInstructions⟩, st₁⟩ := p
      rw [h₁] at h
      try dsimp only at h
      cases h₂ : visitExpression ifTrue st₁ with
      | error e => simp [h₂] at h
      | ok q =>
        obtain ⟨⟨ifTrueOperand, ifTrueInstructions⟩, st₂⟩ := q
        rw [h₂] at h
        try dsimp only at h
        cases h₃ : visitExpression ifFalse st₂ with
        | error e => simp [h₃] at h
        | ok r =>
          obtain ⟨⟨ifFalseOperand, ifFalseInstructions⟩, st₃⟩ := r
          rw [h₃] at h
          dsimp only [allocRegister] at h
          injection h with h'
          injection h' with h₅ h₆
          subst h₆
          exact regExtends_trans (visitExpression_extends condition st _ st₁ h₁)
            (regExtends_trans (visitExpression_extends ifTrue st₁ _ st₂ h₂)
              (regExtends_trans (visitExpression_extends ifFalse st₂ _ st₃ h₃)
                (allocRegister_extends st₃)))
  | .tuple elements, st, out, st', h => by
    simp only [visitExpression] at h
    cases h₁ : visitExpressionList elements st with
    | error e => simp [h₁] at h
    | ok p =>
      obtain ⟨⟨tupleElements, instructions⟩, st₁⟩ := p
      rw [h₁] at h
      try dsimp only at h
      injection h with h'
      injection h' with h₅ h₆
      subst h₆
      exact visitExpressionList_extends elements st _ st₁ h₁
  | .unary receiver op, st, out, st', h => by
    simp only [visitExpression] at h
    cases h₁ : visitExpression receiver st with
    | error e => simp [h₁] at h
    | ok p =>
      obtain ⟨⟨expressionOperand, expressionInstructions⟩, st₁⟩ := p
      rw [h₁] at h
      dsimp only [allocRegister] at h
      injection h with h'
      injection h' with h₅ h₆
      subst h₆
      exact regExtends_trans (visitExpression_extends receiver st _ st₁ h₁)
        (allocRegister_extends st₁)
  | .unit, st, out, st', h => by simp [visitExpression] at h

/-- Operand loops observe the register issuance discipline. -/
theorem visitExpressionList_extends : ∀ (es : List Expression)
    (st : CodeGenerator) (out : List String × String) (st' : CodeGenerator),
    visitExpressionList es st = .ok (out, st') → RegExtends st st'
  | [], st, out, st', h => by
    simp only [visitExpressionList] at h
    injection h with h'
    injection h' with h₅ h₆
    subst h₆
    exact regExtends_refl st
  | e :: rest, st, out, st', h => by
    simp only [visitExpressionList] at h
    cases h₁ : visitExpression e st with
    | error err => simp [h₁] at h
    | ok p =>
      obtain ⟨⟨operand, operandInstructions⟩, st₁⟩ := p
      rw [h₁] at h
      try dsimp only at h
      cases h₂ : visitExpressionList rest st₁ with
      | error err => simp [h₂] at h
      | ok q =>
        obtain ⟨⟨operands, restInstructions⟩, st₂⟩ := q
        rw [h₂] at h
        try dsimp only at h
        injection h with h'
        injection h' with h₅ h₆
        subst h₆
        exact regExtends_trans (visitExpression_extends e st _ st₁ h₁)
          (visitExpressionList_extends rest st₁ _ st₂ h₂)

/-- The struct member loop observes the register issuance discipline. -/
theorem visitStructMembers_extends : ∀ (ms : List StructVariableInitializer)
    (st : CodeGenerator) (out : List String × String) (st' : CodeGenerator),
    visitStructMembers ms st = .ok (out, st') → RegExtends st st'
  | [], st, out, st', h => by
    simp only [visitStructMembers] at h
    injection h with h'
    injection h' with h₅ h₆
    subst h₆
    exact regExtends_refl st
  | .mk identifier (some expr) :: rest, st, out, st', h => by
    simp only [visitStructMembers] at h
    try dsimp only at h
    cases h₁ : visitExpression expr st with
    | error err => simp [h₁] at h
    | ok p =>
      obtain ⟨⟨operand, operandInstructions⟩, st₁⟩ := p
      rw [h₁] at h
      try dsimp only at h
      cases h₂ : visitStructMembers rest st₁ with
      | error err => simp [h₂] at h
      | ok q =>
        obtain ⟨⟨operands, restInstructions⟩, st₂⟩ := q
        rw [h₂] at h
        try dsimp only at h
        injection h with h'
        injection h' with h₅ h₆
        subst h₆
        exact regExtends_trans (visitExpression_extends expr st _ st₁ h₁)
          (visitStructMembers_extends rest st₁ _ st₂ h₂)
  | .mk identifier none :: rest, st, out, st', h => by
    simp only [visitStructMembers] at h
    try dsimp only at h
    cases h₀ : List.lookup identifier st.variableMapping with
    | none => simp [h₀] at h
    | some operand =>
      rw [h₀] at h
      try dsimp only at h
      cases h₂ : visitStructMembers rest st with
      | error err => simp [h₂] at h
      | ok q =>
        obtain ⟨⟨operands, restInstructions⟩, st₂⟩ := q
        rw [h₂] at h
        try dsimp only at h
        injection h with h'
        injection h' with h₅ h₆
        subst h₆
        exact visitStructMembers_extends rest st _ st₂ h₂

end

/-- A compiler diagnostic (`LeoError`); the handler only clones, stores and
forwards it, so it is modelled as an opaque payload. -/
structure LeoError where
  message : String
  deriving Repr, DecidableEq

/-- The saturation bound of the error counter (`usize::saturating_add` on a
64-bit target). -/
def usizeMax : Nat := 2 ^ 64 - 1

/-- Rust `usize::saturating_add`: never overflows, caps at the representable
maximum. -/
def saturatingAdd (a b : Nat) : Nat := min (a + b) usizeMax

/-- Rust `HandlerInner` specialised to a buffering emitter, the only emitter the
scoped-run combinator `Handler::with` constructs: the saturating error
counter and the ordered error buffer (`ErrBuffer`) the `BufferEmitter`
appends to. -/
structure HandlerInner where
  count : Nat
  buffer : List LeoError
  deriving Repr, DecidableEq

/-- Rust `Handler::new_with_buf`: a fresh handler over an empty buffer. -/
def newWithBuf : HandlerInner := { count := 0, buffer := [] }

/-- Rust `HandlerInner::emit_err`: saturating-increment the counter and forward
the error to the (buffering) emitter, which appends it to the buffer. -/
def emitErr (h : HandlerInner) (err : LeoError) : HandlerInner :=
  { count := saturatingAdd h.count 1, buffer := h.buffer ++ [err] }

/-- Rust `Handler::err_count`. -/
def errCount (h : HandlerInner) : Nat := h.count

/-- Rust `Handler::had_errors`: `err_count() > 0`. -/
def hadErrors (h : HandlerInner) : Bool := decide (0 < errCount h)

/-- Rust `Handler::extend_if_error`: a success with previously recorded errors
becomes a failure; a clean success passes through; an error is emitted into
the handler and becomes a failure. -/
def extendIfError {T : Type} (h : HandlerInner) (res : Except LeoError T) :
    HandlerInner × Except Unit T :=
  match res with
  | .ok x => if hadErrors h then (h, .error ()) else (h, .ok x)
  | .error e => (emitErr h e, .error ())

/-- Rust `Handler::with`: run a closure against a fresh buffering handler and
convert the outcome with `extend_if_error`, mapping a failure to the
extracted buffer contents.  The closure interacts with the handler only
through `emit_err`, so it is represented by its emission trace (the
diagnostics it emits, in order) together with its returned result. -/
def handlerWith {T : Type} (emitted : List LeoError)
    (result : Except LeoError T) : Except (List LeoError) T :=
  let handler := newWithBuf
  let handler := emitted.foldl emitErr handler
  match extendIfError handler result with
  | (_, .ok x) => .ok x
  | (h, .error ()) => .error h.buffer

/-- The failure cases of the record commitment verifier: the commitment
mismatch it reports itself, and the propagated failures of the external
conversion, serialization and commitment primitives (`?` in the source). -/
inductive RecordVerificationError where
  | commitmentsDoNotMatch
  | propagated (message : String)
  deriving Repr, DecidableEq

/-- Rust `verify_record_commitment` (record_commitment.rs), parameterised over the
external collaborators it calls, which are outside this core (spec §6 treats
it as a boundary contract): `tryFrom` is `DPCRecordValues::try_from`,
`toBytes` is the `to_bytes![..]` serialization of the seven record fields,
`readCommitment` and `readRandomness` decode the record's stored bytes, and
`commit` is the external commitment scheme applied to the system parameters.
The function body mirrors the source line by line. -/
def verifyRecordCommitment {TypedRecord DPCRecord Bytes Output Randomness
    Params : Type} [DecidableEq Output]
    (tryFrom : TypedRecord → Except RecordVerificationError DPCRecord)
    (toBytes : DPCRecord → Except RecordVerificationError Bytes)
    (readCommitment : DPCRecord → Except RecordVerificationError Output)
    (readRandomness : DPCRecord → Except RecordVerificationError Randomness)
    (commit : Params → Bytes → Randomness →
      Except RecordVerificationError Output)
    (systemParameters : Params) (typedRecord : TypedRecord) :
    Except RecordVerificationError DPCRecord :=
  match tryFrom typedRecord with
  | .error e => .error e
  | .ok record =>
    match toBytes record with
    | .error e => .error e
    | .ok recordCommitmentInput =>
      match readCommitment record with
      | .error e => .error e
      | .ok commitment =>
        match readRandomness record with
        | .error e => .error e
        | .ok commitmentRandomness =>
          match commit systemParameters recordCommitmentInput
              commitmentRandomness with
          | .error e => .error e
          | .ok recordCommitment =>
            if recordCommitment = commitment then .ok record
            else .error .commitmentsDoNotMatch

mutual

/-- The identifier occurrences the dead code eliminator's expression walk
visits (and therefore records when the necessity flag is set), in traversal
order: every `Identifier` node reachable through the reconstructor's
recursion, including a call's callee identifier. -/
def idsOf : Expression → List Sym
  | .access (.member inner _) => idsOf inner
  | .access (.associatedConstant _ _) => []
  | .access (.associatedFunction _ _ args) => idsOfList args
  | .access (.tupleAccess tup _) => idsOf tup
  | .binary left right _ => idsOf left ++ idsOf right
  | .call function _ arguments => idsOf function ++ idsOfList arguments
  | .struct _ members => idsOfMembers members
  | .err => []
  | .identifier x => [x]
  | .literal _ => []
  | .ternary condition ifTrue ifFalse =>
    idsOf condition ++ idsOf ifTrue ++ idsOf ifFalse
  | .tuple elements => idsOfList elements
  | .unary receiver _ => idsOf receiver
  | .unit => []

def idsOfList : List Expression → List Sym
  | [] => []
  | e :: rest => idsOf e ++ idsOfList rest

def idsOfMembers : List StructVariableInitializer → List Sym
  | [] => []
  | .mk _ (some e) :: rest => idsOf e ++ idsOfMembers rest
  | .mk _ none :: rest => idsOfMembers rest

end

theorem insertUsed_self (used : List Sym) (x : Sym) : x ∈ insertUsed used x := by
  unfold insertUsed
  split
  · assumption
  · exact List.mem_cons_self x used

theorem insertUsed_mono {used : List Sym} {y : Sym} (x : Sym) (h : y ∈ used) :
    y ∈ insertUsed used x := by
  unfold insertUsed
  split
  · exact h
  · exact List.mem_cons_of_mem x h

mutual

/-- The dead code eliminator's expression walk returns the expression
unchanged, preserves the necessity flag, only grows the liveness set, and —
when the necessity flag is set — records every identifier occurrence of the
expression into the liveness set. -/
theorem reconstructExpression_spec : ∀ (e : Expression) (s : DeadCodeEliminator)
    (e' : Expression) (s' : DeadCodeEliminator),
    reconstructExpression e s = .ok (e', s') →
    e' = e ∧ s'.isNecessary = s.isNecessary ∧
      (∀ y, y ∈ s.usedVariables → y ∈ s'.usedVariables) ∧
      (s.isNecessary = true → ∀ y, y ∈ idsOf e → y ∈ s'.usedVariables)
  | .access (.member inner name), s, e', s', h => by
    simp only [reconstructExpression] at h
    cases h₁ : reconstructExpression inner s with
    | error err => simp [h₁] at h
    | ok p =>
      obtain ⟨inner', s₁⟩ := p
      rw [h₁] at h
      try dsimp only at h
      injection h with h'
      injection h' with h₅ h₆
      subst h₅; subst h₆
      obtain ⟨hi1, hi2, hi3, hi4⟩ := reconstructExpression_spec inner s _ _ h₁
      subst hi1
      exact ⟨rfl, hi2, hi3, fun hnec y hy => hi4 hnec y (by simpa [idsOf] using hy)⟩
  | .access (.associatedConstant ty name), s, e', s', h => by
    simp only [reconstructExpression] at h
    injection h with h'
    injection h' with h₅ h₆
    subst h₅; subst h₆
    exact ⟨rfl, rfl, fun y hy => hy, fun _ y hy => by simp [idsOf] at hy⟩
  | .access (.associatedFunction ty name args), s, e', s', h => by
    simp only [reconstructExpression] at h
    cases h₁ : reconstructExpressionList args s with
    | error err => simp [h₁] at h
    | ok p =>
      obtain ⟨args', s₁⟩ := p
      rw [h₁] at h
      try dsimp only at h
      injection h with h'
      injection h' with h₅ h₆
      subst h₅; subst h₆
      obtain ⟨hi1, hi2, hi3, hi4⟩ := reconstructExpressionList_spec args s _ _ h₁
      subst hi1
      exact ⟨rfl, hi2, hi3, fun hnec y hy => hi4 hnec y (by simpa [idsOf] using hy)⟩
  | .access (.tupleAccess tup index), s, e', s', h => by
    simp only [reconstructExpression] at h
    cases h₁ : reconstructExpression tup s with
    | error err => simp [h₁] at h
    | ok p =>
      obtain ⟨tup', s₁⟩ := p
      rw [h₁] at h
      try dsimp only at h
      injection h with h'
      injection h' with h₅ h₆
      subst h₅; subst h₆
      obtain ⟨hi1, hi2, hi3, hi4⟩ := reconstructExpression_spec tup s _ _ h₁
      subst hi1
      exact ⟨rfl, hi2, hi3, fun hnec y hy => hi4 hnec y (by simpa [idsOf] using hy)⟩
  | .binary left right op, s, e', s', h => by
    simp only [reconstructExpression] at h
    cases h₁ : reconstructExpression left s with
    | error err => simp [h₁] at h
    | ok p =>
      obtain ⟨left', s₁⟩ := p
      rw [h₁] at h
      try dsimp only at h
      cases h₂ : reconstructExpression right s₁ with
      | error err => simp [h₂] at h
      | ok q =>
        obtain ⟨right', s₂⟩ := q
        rw [h₂] at h
        try dsimp only at h
        injection h with h'
        injection h' with h₅ h₆
        subst h₅; subst h₆
        obtain ⟨hl1, hl2, hl3, hl4⟩ := reconstructExpression_spec left s _ _ h₁
        obtain ⟨hr1, hr2, hr3, hr4⟩ := reconstructExpression_spec right s₁ _ _ h₂
        subst hl1; subst hr1
        refine ⟨rfl, by rw [hr2, hl2], fun y hy => hr3 y (hl3 y hy), ?_⟩
        intro hnec y hy
        simp only [idsOf, List.mem_append] at hy
        cases hy with
        | inl hy => exact hr3 y (hl4 hnec y hy)
        | inr hy => exact hr4 (by rw [hl2, hnec]) y hy
  | .call function external arguments, s, e', s', h => by
    simp only [reconstructExpression] at h
    cases h₁ : reconstructExpression function s with
    | error err => simp [h₁] at h
    | ok p =>
      obtain ⟨function', s₁⟩ := p
      rw [h₁] at h
      try dsimp only at h
      cases h₂ : reconstructExpressionList arguments s₁ with
      | error err => simp [h₂] at h
      | ok q =>
        obtain ⟨arguments', s₂⟩ := q
        rw [h₂] at h
        try dsimp only at h
        injection h with h'
        injection h' with h₅ h₆
        subst h₅; subst h₆
        obtain ⟨hl1, hl2, hl3, hl4⟩ := reconstructExpression_spec function s _ _ h₁
        obtain ⟨hr1, hr2, hr3, hr4⟩ := reconstructExpressionList_spec arguments s₁ _ _ h₂
        subst hl1; subst hr1
        refine ⟨rfl, by rw [hr2, hl2], fun y hy => hr3 y (hl3 y hy), ?_⟩
        intro hnec y hy
        simp only [idsOf, List.mem_append] at hy
        cases hy with
        | inl hy => exact hr3 y (hl4 hnec y hy)
        | inr hy => exact hr4 (by rw [hl2, hnec]) y hy
  | .struct name members, s, e', s', h => by
    simp only [reconstructExpression] at h
    cases h₁ : reconstructMembers members s with
    | error err => simp [h₁] at h
    | ok p =>
      obtain ⟨members', s₁⟩ := p
      rw [h₁] at h
      try dsimp only at h
      injection h with h'
      injection h' with h₅ h₆
      subst h₅; subst h₆
      obtain ⟨hi1, hi2, hi3, hi4⟩ := reconstructMembers_spec members s _ _ h₁
      subst hi1
      exact ⟨rfl, hi2, hi3, fun hnec y hy => hi4 hnec y (by simpa [idsOf] using hy)⟩
  | .err, s, e', s', h => by
    simp only [reconstructExpression] at h
    injection h with h'
    injection h' with h₅ h₆
    subst h₅; subst h₆
    exact ⟨rfl, rfl, fun y hy => hy, fun _ y hy => by simp [idsOf] at hy⟩
  | .identifier x, s, e', s', h => by
    simp only [reconstructExpression, reconstructIdentifier] at h
    cases hnec : s.isNecessary with
    | false =>
      rw [hnec] at h
      simp only [Bool.false_eq_true, if_false] at h
      injection h with h'
      injection h' with h₅ h₆
      subst h₅; subst h₆
      exact ⟨rfl, hnec, fun y hy => hy, fun hcontra => by simp at hcontra⟩
    | true =>
      rw [hnec] at h
      simp only [if_true] at h
      injection h with h'
      injection h' with h₅ h₆
      subst h₅; subst h₆
      refine ⟨rfl, rfl, fun y hy => insertUsed_mono x hy, ?_⟩
      intro _ y hy
      simp only [idsOf, List.mem_singleton] at hy
      subst hy
      exact insertUsed_self s.usedVariables y
  | .literal text, s, e', s', h => by
    simp only [reconstructExpression] at h
    injection h with h'
    injection h' with h₅ h₆
    subst h₅; subst h₆
    exact ⟨rfl, rfl, fun y hy => hy, fun _ y hy => by simp [idsOf] at hy⟩
  | .ternary condition ifTrue ifFalse, s, e', s', h => by
    simp only [reconstructExpression] at h
    cases h₁ : reconstructExpression condition s with
    | error err => simp [h₁] at h
    | ok p =>
      obtain ⟨condition', s₁⟩ := p
      rw [h₁] at h
      try dsimp only at h
      cases h₂ : reconstructExpression ifTrue s₁ with
      | error err => simp [h₂] at h
      | ok q =>
        obtain ⟨ifTrue', s₂⟩ := q
        rw [h₂] at h
        try dsimp only at h
        cases h₃ : reconstructExpression ifFalse s₂ with
        | error err => simp [h₃] at h
        | ok r =>
          obtain ⟨ifFalse', s₃⟩ := r
          rw [h₃] at h
          try dsimp only at h
          injection h with h'
          injection h' with h₅ h₆
          subst h₅; subst h₆
          obtain ⟨hc1, hc2, hc3, hc4⟩ := reconstructExpression_spec condition s _ _ h₁
          obtain ⟨ht1, ht2, ht3, ht4⟩ := reconstructExpression_spec ifTrue s₁ _ _ h₂
          obtain ⟨hf1, hf2, hf3, hf4⟩ := reconstructExpression_spec ifFalse s₂ _ _ h₃
          subst hc1; subst ht1; subst hf1
          refine ⟨rfl, by rw [hf2, ht2, hc2],
            fun y hy => hf3 y (ht3 y (hc3 y hy)), ?_⟩
          intro hnec y hy
          simp only [idsOf, List.mem_append] at hy
          rcases hy with (hy | hy) | hy
          · exact hf3 y (ht3 y (hc4 hnec y hy))
          · exact hf3 y (ht4 (by rw [hc2, hnec]) y hy)
          · exact hf4 (by rw [ht2, hc2, hnec]) y hy
  | .tuple elements, s, e', s', h => by
    simp only [reconstructExpression] at h
    cases h₁ : reconstructExpressionList elements s with
    | error err => simp [h₁] at h
    | ok p =>
      obtain ⟨elements', s₁⟩ := p
      rw [h₁] at h
      try dsimp only at h
      injection h with h'
      injection h' with h₅ h₆
      subst h₅; subst h₆
      obtain ⟨hi1, hi2, hi3, hi4⟩ := reconstructExpressionList_spec elements s _ _ h₁
      subst hi1
      exact ⟨rfl, hi2, hi3, fun hnec y hy => hi4 hnec y (by simpa [idsOf] using hy)⟩
  | .unary receiver op, s, e', s', h => by
    simp only [reconstructExpression] at h
    cases h₁ : reconstructExpression receiver s with
    | error err => simp [h₁] at h
    | ok p =>
      obtain ⟨receiver', s₁⟩ := p
      rw [h₁] at h
      try dsimp only at h
      injection h with h'
      injection h' with h₅ h₆
      subst h₅; subst h₆
      obtain ⟨hi1, hi2, hi3, hi4⟩ := reconstructExpression_spec receiver s _ _ h₁
      subst hi1
      exact ⟨rfl, hi2, hi3, fun hnec y hy => hi4 hnec y (by simpa [idsOf] using hy)⟩
  | .unit, s, e', s', h => by
    simp only [reconstructExpression] at h
    injection h with h'
    injection h' with h₅ h₆
    subst h₅; subst h₆
    exact ⟨rfl, rfl, fun y hy => hy, fun _ y hy => by simp [idsOf] at hy⟩

/-- List version of `reconstructExpression_spec`. -/
theorem reconstructExpressionList_spec : ∀ (es : List Expression)
    (s : DeadCodeEliminator) (es' : List Expression) (s' : DeadCodeEliminator),
    reconstructExpressionList es s = .ok (es', s') →
    es' = es ∧ s'.isNecessary = s.isNecessary ∧
      (∀ y, y ∈ s.usedVariables → y ∈ s'.usedVariables) ∧
      (s.isNecessary = true → ∀ y, y ∈ idsOfList es → y ∈ s'.usedVariables)
  | [], s, es', s', h => by
    simp only [reconstructExpressionList] at h
    injection h with h'
    injection h' with h₅ h₆
    subst h₅; subst h₆
    exact ⟨rfl, rfl, fun y hy => hy, fun _ y hy => by simp [idsOfList] at hy⟩
  | e :: rest, s, es', s', h => by
    simp only [reconstructExpressionList] at h
    cases h₁ : reconstructExpression e s with
    | error err => simp [h₁] at h
    | ok p =>
      obtain ⟨e₁, s₁⟩ := p
      rw [h₁] at h
      try dsimp only at h
      cases h₂ : reconstructExpressionList rest s₁ with
      | error err => simp [h₂] at h
      | ok q =>
        obtain ⟨rest', s₂⟩ := q
        rw [h₂] at h
        try dsimp only at h
        injection h with h'
        injection h' with h₅ h₆
        subst h₅; subst h₆
        obtain ⟨hl1, hl2, hl3, hl4⟩ := reconstructExpression_spec e s _ _ h₁
        obtain ⟨hr1, hr2, hr3, hr4⟩ := reconstructExpressionList_spec rest s₁ _ _ h₂
        subst hl1; subst hr1
        refine ⟨rfl, by rw [hr2, hl2], fun y hy => hr3 y (hl3 y hy), ?_⟩
        intro hnec y hy
        simp only [idsOfList, List.mem_append] at hy
        cases hy with
        | inl hy => exact hr3 y (hl4 hnec y hy)
        | inr hy => exact hr4 (by rw [hl2, hnec]) y hy

/-- Struct member version of `reconstructExpression_spec`. -/
theorem reconstructMembers_spec : ∀ (ms : List StructVariableInitializer)
    (s : DeadCodeEliminator) (ms' : List StructVariableInitializer)
    (s' : DeadCodeEliminator),
    reconstructMembers ms s = .ok (ms', s') →
    ms' = ms ∧ s'.isNecessary = s.isNecessary ∧
      (∀ y, y ∈ s.usedVariables → y ∈ s'.usedVariables) ∧
      (s.isNecessary = true → ∀ y, y ∈ idsOfMembers ms → y ∈ s'.usedVariables)
  | [], s, ms', s', h => by
    simp only [reconstructMembers] at h
    injection h with h'
    injection h' with h₅ h₆
    subst h₅; subst h₆
    exact ⟨rfl, rfl, fun y hy => hy, fun _ y hy => by simp [idsOfMembers] at hy⟩
  | .mk ident none :: rest, s, ms', s', h => by
    simp [reconstructMembers] at h
  | .mk ident (some e) :: rest, s, ms', s', h => by
    simp only [reconstructMembers] at h
    cases h₁ : reconstructExpression e s with
    | error err => simp [h₁] at h
    | ok p =>
      obtain ⟨e₁, s₁⟩ := p
      rw [h₁] at h
      try dsimp only at h
      cases h₂ : reconstructMembers rest s₁ with
      | error err => simp [h₂] at h
      | ok q =>
        obtain ⟨rest', s₂⟩ := q
        rw [h₂] at h
        try dsimp only at h
        injection h with h'
        injection h' with h₅ h₆
        subst h₅; subst h₆
        obtain ⟨hl1, hl2, hl3, hl4⟩ := reconstructExpression_spec e s _ _ h₁
        obtain ⟨hr1, hr2, hr3, hr4⟩ := reconstructMembers_spec rest s₁ _ _ h₂
        subst hl1; subst hr1
        refine ⟨rfl, by rw [hr2, hl2], fun y hy => hr3 y (hl3 y hy), ?_⟩
        intro hnec y hy
        simp only [idsOfMembers, List.mem_append] at hy
        cases hy with
        | inl hy => exact hr3 y (hl4 hnec y hy)
        | inr hy => exact hr4 (by rw [hl2, hnec]) y hy

end

mutual

/-- Reprocessing a reconstructed statement from the same entry state (with
the necessity flag unset) reproduces it identically — the heart of the dead
code eliminator's idempotence — and the exit state has the flag unset. -/
theorem reconstructStatement_idem : ∀ (st : Statement) (s : DeadCodeEliminator)
    (st' : Statement) (s' : DeadCodeEliminator),
    s.isNecessary = false → reconstructStatement st s = .ok (st', s') →
    s'.isNecessary = false ∧ reconstructStatement st' s = .ok (st', s')
  | .assert variant, s, st', s', hnec, h => by
    simp only [reconstructStatement] at h
    cases variant with
    | assert e =>
      simp only [reconstructAssert] at h
      cases h₁ : reconstructExpression e { s with isNecessary := true } with
      | error err => simp [h₁] at h
      | ok p =>
        obtain ⟨e₁, s₁⟩ := p
        rw [h₁] at h
        try dsimp only at h
        injection h with h'
        injection h' with h₅ h₆
        subst h₅; subst h₆
        obtain ⟨he, _, _, _⟩ := reconstructExpression_spec e _ _ _ h₁
        subst he
        refine ⟨rfl, ?_⟩
        simp only [reconstructStatement, reconstructAssert]
        rw [h₁]
    | assertEq left right =>
      simp only [reconstructAssert] at h
      cases h₁ : reconstructExpression left { s with isNecessary := true } with
      | error err => simp [h₁] at h
      | ok p =>
        obtain ⟨left₁, s₁⟩ := p
        rw [h₁] at h
        try dsimp only at h
        cases h₂ : reconstructExpression right s₁ with
        | error err => simp [h₂] at h
        | ok q =>
          obtain ⟨right₁, s₂⟩ := q
          rw [h₂] at h
          try dsimp only at h
          injection h with h'
          injection h' with h₅ h₆
          subst h₅; subst h₆
          obtain ⟨hl, _, _, _⟩ := reconstructExpression_spec left _ _ _ h₁
          obtain ⟨hr, _, _, _⟩ := reconstructExpression_spec right _ _ _ h₂
          subst hl; subst hr
          refine ⟨rfl, ?_⟩
          simp only [reconstructStatement, reconstructAssert]
          rw [h₁]
          try dsimp only
          rw [h₂]
    | assertNeq left right =>
      simp only [reconstructAssert] at h
      cases h₁ : reconstructExpression left { s with isNecessary := true } with
      | error err => simp [h₁] at h
      | ok p =>
        obtain ⟨left₁, s₁⟩ := p
        rw [h₁] at h
        try dsimp only at h
        cases h₂ : reconstructExpression right s₁ with
        | error err => simp [h₂] at h
        | ok q =>
          obtain ⟨right₁, s₂⟩ := q
          rw [h₂] at h
          try dsimp only at h
          injection h with h'
          injection h' with h₅ h₆
          subst h₅; subst h₆
          obtain ⟨hl, _, _, _⟩ := reconstructExpression_spec left _ _ _ h₁
          obtain ⟨hr, _, _, _⟩ := reconstructExpression_spec right _ _ _ h₂
          subst hl; subst hr
          refine ⟨rfl, ?_⟩
          simp only [reconstructStatement, reconstructAssert]
          rw [h₁]
          try dsimp only
          rw [h₂]
  | .assign place value, s, st', s', hnec, h => by
    simp only [reconstructStatement, reconstructAssign] at h
    cases place with
    | identifier x =>
      try dsimp only at h
      by_cases hx : x ∈ s.usedVariables
      · rw [decide_eq_true hx] at h
        try dsimp only at h
        cases h₁ : reconstructExpression value { s with isNecessary := true } with
        | error err => simp [h₁] at h
        | ok p =>
          obtain ⟨value₁, s₁⟩ := p
          rw [h₁] at h
          try dsimp only at h
          injection h with h'
          injection h' with h₅ h₆
          subst h₅; subst h₆
          obtain ⟨hv, _, _, _⟩ := reconstructExpression_spec value _ _ _ h₁
          subst hv
          refine ⟨rfl, ?_⟩
          simp only [reconstructStatement, reconstructAssign]
          try dsimp only
          rw [decide_eq_true hx]
          try dsimp only
          rw [h₁]
      · rw [decide_eq_false hx] at h
        try dsimp only at h
        injection h with h'
        injection h' with h₅ h₆
        subst h₅; subst h₆
        exact ⟨hnec, rfl⟩
    | tuple elements =>
      try dsimp only at h
      cases h₀ : lhsIsUsedTuple s elements with
      | error err => simp [h₀] at h
      | ok b =>
        rw [h₀] at h
        try dsimp only at h
        cases b with
        | true =>
          try dsimp only at h
          cases h₁ : reconstructExpression value { s with isNecessary := true } with
          | error err => simp [h₁] at h
          | ok p =>
            obtain ⟨value₁, s₁⟩ := p
            rw [h₁] at h
            try dsimp only at h
            injection h with h'
            injection h' with h₅ h₆
            subst h₅; subst h₆
            obtain ⟨hv, _, _, _⟩ := reconstructExpression_spec value _ _ _ h₁
            subst hv
            refine ⟨rfl, ?_⟩
            simp only [reconstructStatement, reconstructAssign]
            try dsimp only
            rw [h₀]
            try dsimp only
            rw [h₁]
        | false =>
          try dsimp only at h
          injection h with h'
          injection h' with h₅ h₆
          subst h₅; subst h₆
          exact ⟨hnec, rfl⟩
    | access a => simp at h
    | binary l r op => simp at h
    | call f ext args => simp at h
    | struct n m => simp at h
    | err => simp at h
    | literal t => simp at h
    | ternary c t f => simp at h
    | unary r op => simp at h
    | unit => simp at h
  | .block statements, s, st', s', hnec, h => by
    simp only [reconstructStatement] at h
    cases h₁ : reconstructStatementsRev statements s with
    | error err => simp [h₁] at h
    | ok p =>
      obtain ⟨statements', s₁⟩ := p
      rw [h₁] at h
      try dsimp only at h
      injection h with h'
      injection h' with h₅ h₆
      subst h₅; subst h₆
      obtain ⟨hn₁, hrerun⟩ := reconstructStatementsRev_idem statements s _ _ hnec h₁
      refine ⟨hn₁, ?_⟩
      simp only [reconstructStatement]
      rw [hrerun]
  | .conditional, s, st', s', hnec, h => by simp [reconstructStatement] at h
  | .console, s, st', s', hnec, h => by simp [reconstructStatement] at h
  | .decrement mapping index amount, s, st', s', hnec, h => by
    simp only [reconstructStatement, reconstructDecrement] at h
    cases h₁ : reconstructExpression index { s with isNecessary := true } with
    | error err => simp [h₁] at h
    | ok p =>
      obtain ⟨index₁, s₁⟩ := p
      rw [h₁] at h
      try dsimp only at h
      cases h₂ : reconstructExpression amount s₁ with
      | error err => simp [h₂] at h
      | ok q =>
        obtain ⟨amount₁, s₂⟩ := q
        rw [h₂] at h
        try dsimp only at h
        injection h with h'
        injection h' with h₅ h₆
        subst h₅; subst h₆
        obtain ⟨hi, _, _, _⟩ := reconstructExpression_spec index _ _ _ h₁
        obtain ⟨ha, _, _, _⟩ := reconstructExpression_spec amount _ _ _ h₂
        subst hi; subst ha
        refine ⟨rfl, ?_⟩
        simp only [reconstructStatement, reconstructDecrement]
        rw [h₁]
        try dsimp only
        rw [h₂]
  | .definition, s, st', s', hnec, h => by simp [reconstructStatement] at h
  | .expression e, s, st', s', hnec, h => by
    simp only [reconstructStatement, reconstructExpressionStatement] at h
    cases e with
    | call function external arguments =>
      try dsimp only at h
      cases h₁ : reconstructExpression (.call function external arguments)
          { s with isNecessary := true } with
      | error err => simp [h₁] at h
      | ok p =>
        obtain ⟨e₁, s₁⟩ := p
        rw [h₁] at h
        try dsimp only at h
        injection h with h'
        injection h' with h₅ h₆
        subst h₅; subst h₆
        obtain ⟨he, _, _, _⟩ := reconstructExpression_spec _ _ _ _ h₁
        subst he
        refine ⟨rfl, ?_⟩
        simp only [reconstructStatement, reconstructExpressionStatement]
        rw [h₁]
    | access a => simp at h
    | binary l r op => simp at h
    | struct n m => simp at h
    | err => simp at h
    | identifier x => simp at h
    | literal t => simp at h
    | ternary c t f => simp at h
    | tuple es => simp at h
    | unary r op => simp at h
    | unit => simp at h
  | .increment mapping index amount, s, st', s', hnec, h => by
    simp only [reconstructStatement, reconstructIncrement] at h
    cases h₁ : reconstructExpression index { s with isNecessary := true } with
    | error err => simp [h₁] at h
    | ok p =>
      obtain ⟨index₁, s₁⟩ := p
      rw [h₁] at h
      try dsimp only at h
      cases h₂ : reconstructExpression amount s₁ with
      | error err => simp [h₂] at h
      | ok q =>
        obtain ⟨amount₁, s₂⟩ := q
        rw [h₂] at h
        try dsimp only at h
        injection h with h'
        injection h' with h₅ h₆
        subst h₅; subst h₆
        obtain ⟨hi, _, _, _⟩ := reconstructExpression_spec index _ _ _ h₁
        obtain ⟨ha, _, _, _⟩ := reconstructExpression_spec amount _ _ _ h₂
        subst hi; subst ha
        refine ⟨rfl, ?_⟩
        simp only [reconstructStatement, reconstructIncrement]
        rw [h₁]
        try dsimp only
        rw [h₂]
  | .iteration, s, st', s', hnec, h => by simp [reconstructStatement] at h
  | .ret e finalizeArguments, s, st', s', hnec, h => by
    simp only [reconstructStatement, reconstructReturn] at h
    cases h₁ : reconstructExpression e { s with isNecessary := true } with
    | error err => simp [h₁] at h
    | ok p =>
      obtain ⟨e₁, s₁⟩ := p
      rw [h₁] at h
      try dsimp only at h
      cases finalizeArguments with
      | none =>
        try dsimp only at h
        injection h with h'
        injection h' with h₅ h₆
        subst h₅; subst h₆
        obtain ⟨he, _, _, _⟩ := reconstructExpression_spec e _ _ _ h₁
        subst he
        refine ⟨rfl, ?_⟩
        simp only [reconstructStatement, reconstructReturn]
        rw [h₁]
      | some args =>
        try dsimp only at h
        cases h₂ : reconstructExpressionList args s₁ with
        | error err => simp [h₂] at h
        | ok q =>
          obtain ⟨args₁, s₂⟩ := q
          rw [h₂] at h
          try dsimp only at h
          injection h with h'
          injection h' with h₅ h₆
          subst h₅; subst h₆
          obtain ⟨he, _, _, _⟩ := reconstructExpression_spec e _ _ _ h₁
          obtain ⟨hargs, _, _, _⟩ := reconstructExpressionList_spec args _ _ _ h₂
          subst he; subst hargs
          refine ⟨rfl, ?_⟩
          simp only [reconstructStatement, reconstructReturn]
          rw [h₁]
          try dsimp only
          rw [h₂]

/-- List version of `reconstructStatement_idem` for the fused right-to-left
walk. -/
theorem reconstructStatementsRev_idem : ∀ (l : List Statement)
    (s : DeadCodeEliminator) (l' : List Statement) (s' : DeadCodeEliminator),
    s.isNecessary = false → reconstructStatementsRev l s = .ok (l', s') →
    s'.isNecessary = false ∧ reconstructStatementsRev l' s = .ok (l', s')
  | [], s, l', s', hnec, h => by
    simp only [reconstructStatementsRev] at h
    injection h with h'
    injection h' with h₅ h₆
    subst h₅; subst h₆
    exact ⟨hnec, rfl⟩
  | st :: rest, s, l', s', hnec, h => by
    simp only [reconstructStatementsRev] at h
    cases h₁ : reconstructStatementsRev rest s with
    | error err => simp [h₁] at h
    | ok p =>
      obtain ⟨rest', s₁⟩ := p
      rw [h₁] at h
      try dsimp only at h
      cases h₂ : reconstructStatement st s₁ with
      | error err => simp [h₂] at h
      | ok q =>
        obtain ⟨st₁, s₂⟩ := q
        rw [h₂] at h
        try dsimp only at h
        injection h with h'
        injection h' with h₅ h₆
        subst h₅; subst h₆
        obtain ⟨hn₁, hr₁⟩ := reconstructStatementsRev_idem rest s _ _ hnec h₁
        obtain ⟨hn₂, hr₂⟩ := reconstructStatement_idem st s₁ _ _ hn₁ h₂
        refine ⟨hn₂, ?_⟩
        simp only [reconstructStatementsRev]
        rw [hr₁]
        try dsimp only
        rw [hr₂]

end

/-- The left-hand-side symbols of a well-formed assignment place: a single
identifier, or a tuple whose elements are all identifiers. -/
def elementSymbols : List Expression → Option (List Sym)
  | [] => some []
  | .identifier x :: rest => (elementSymbols rest).map (fun syms => x :: syms)
  | _ :: _ => none

/-- The symbols assigned by an assignment place (`none` when the place is
malformed for this phase). -/
def placeSymbols : Expression → Option (List Sym)
  | .identifier x => some [x]
  | .tuple elements => elementSymbols elements
  | _ => none

/-- On a well-formed tuple place, the short-circuit liveness scan computes
exactly the `any`-membership test of the element symbols. -/
theorem lhsIsUsedTuple_any : ∀ (elements : List Expression) (syms : List Sym)
    (s : DeadCodeEliminator), elementSymbols elements = some syms →
    lhsIsUsedTuple s elements =
      .ok (syms.any (fun x => decide (x ∈ s.usedVariables)))
  | [], syms, s, h => by
    simp only [elementSymbols, Option.some.injEq] at h
    subst h
    simp [lhsIsUsedTuple]
  | .identifier x :: rest, syms, s, h => by
    simp only [elementSymbols, Option.map_eq_some'] at h
    obtain ⟨syms', hrest, hsyms⟩ := h
    subst hsyms
    simp only [lhsIsUsedTuple, List.any_cons]
    by_cases hx : x ∈ s.usedVariables
    · rw [if_pos hx, decide_eq_true hx]
      simp
    · rw [if_neg hx, decide_eq_false hx]
      rw [lhsIsUsedTuple_any rest syms' s hrest]
      simp
  | .access a :: rest, syms, s, h => by simp [elementSymbols] at h
  | .binary l r op :: rest, syms, s, h => by simp [elementSymbols] at h
  | .call f ext args :: rest, syms, s, h => by simp [elementSymbols] at h
  | .struct n m :: rest, syms, s, h => by simp [elementSymbols] at h
  | .err :: rest, syms, s, h => by simp [elementSymbols] at h
  | .literal t :: rest, syms, s, h => by simp [elementSymbols] at h
  | .ternary c t f :: rest, syms, s, h => by simp [elementSymbols] at h
  | .tuple es :: rest, syms, s, h => by simp [elementSymbols] at h
  | .unary r op :: rest, syms, s, h => by simp [elementSymbols] at h
  | .unit :: rest, syms, s, h => by simp [elementSymbols] at h

/-- Rust `reconstruct_assert` always returns with the necessity flag unset,
whatever its entry value was. -/
theorem reconstructAssert_resets (variant : AssertVariant)
    (s : DeadCodeEliminator) (r : Statement × DeadCodeEliminator)
    (h : reconstructAssert variant s = .ok r) : r.2.isNecessary = false := by
  cases variant with
  | assert e =>
    simp only [reconstructAssert] at h
    split at h
    · exact absurd h (by simp)
    · injection h with h'; rw [← h']
  | assertEq left right =>
    simp only [reconstructAssert] at h
    split at h
    · exact absurd h (by simp)
    · split at h
      · exact absurd h (by simp)
      · injection h with h'; rw [← h']
  | assertNeq left right =>
    simp only [reconstructAssert] at h
    split at h
    · exact absurd h (by simp)
    · split at h
      · exact absurd h (by simp)
      · injection h with h'; rw [← h']

/-- Rust `reconstruct_increment` always returns with the necessity flag unset. -/
theorem reconstructIncrement_resets (mapping : Sym) (index amount : Expression)
    (s : DeadCodeEliminator) (r : Statement × DeadCodeEliminator)
    (h : reconstructIncrement mapping index amount s = .ok r) :
    r.2.isNecessary = false := by
  simp only [reconstructIncrement] at h
  split at h
  · exact absurd h (by simp)
  · split at h
    · exact absurd h (by simp)
    · injection h with h'; rw [← h']

/-- Rust `reconstruct_decrement` always returns with the necessity flag unset. -/
theorem reconstructDecrement_resets (mapping : Sym) (index amount : Expression)
    (s : DeadCodeEliminator) (r : Statement × DeadCodeEliminator)
    (h : reconstructDecrement mapping index amount s = .ok r) :
    r.2.isNecessary = false := by
  simp only [reconstructDecrement] at h
  split at h
  · exact absurd h (by simp)
  · split at h
    · exact absurd h (by simp)
    · injection h with h'; rw [← h']

/-- Rust `reconstruct_expression_statement` always returns with the necessity flag
unset. -/
theorem reconstructExpressionStatement_resets (e : Expression)
    (s : DeadCodeEliminator) (r : Statement × DeadCodeEliminator)
    (h : reconstructExpressionStatement e s = .ok r) :
    r.2.isNecessary = false := by
  cases e with
  | call function external arguments =>
    simp only [reconstructExpressionStatement] at h
    split at h
    · exact absurd h (by simp)
    · injection h with h'; rw [← h']
  | access a => simp [reconstructExpressionStatement] at h
  | binary l r op => simp [reconstructExpressionStatement] at h
  | struct n m => simp [reconstructExpressionStatement] at h
  | err => simp [reconstructExpressionStatement] at h
  | identifier x => simp [reconstructExpressionStatement] at h
  | literal t => simp [reconstructExpressionStatement] at h
  | ternary c t f => simp [reconstructExpressionStatement] at h
  | tuple es => simp [reconstructExpressionStatement] at h
  | unary r op => simp [reconstructExpressionStatement] at h
  | unit => simp [reconstructExpressionStatement] at h

/-- Rust `reconstruct_return` always returns with the necessity flag unset. -/
theorem reconstructReturn_resets (e : Expression)
    (finalizeArguments : Option (List Expression)) (s : DeadCodeEliminator)
    (r : Statement × DeadCodeEliminator)
    (h : reconstructReturn e finalizeArguments s = .ok r) :
    r.2.isNecessary = false := by
  simp only [reconstructReturn] at h
  split at h
  · exact absurd h (by simp)
  · split at h
    · injection h with h'; rw [← h']
    · split at h
      · exact absurd h (by simp)
      · injection h with h'; rw [← h']

/-- Emitting a list of errors into a handler appends them to its buffer and
saturating-counts them. -/
theorem foldl_emitErr (l : List LeoError) : ∀ h₀ : HandlerInner,
    (List.foldl emitErr h₀ l).buffer = h₀.buffer ++ l ∧
      (h₀.count ≤ usizeMax →
        (List.foldl emitErr h₀ l).count = min (h₀.count + l.length) usizeMax) := by
  induction l with
  | nil => intro h₀; refine ⟨by simp, fun hle => by simp; omega⟩
  | cons e rest ih =>
    intro h₀
    obtain ⟨hbuf, hcount⟩ := ih (emitErr h₀ e)
    constructor
    · rw [List.foldl_cons, hbuf]
      simp [emitErr]
    · intro hle
      rw [List.foldl_cons, hcount (by simp [emitErr, saturatingAdd])]
      simp only [emitErr, saturatingAdd, List.length_cons]
      omega

/-- The tuple-output destination loop advances the counter by exactly the
requested length and issues exactly that consecutive block of registers. -/
theorem allocRegisterLoop_state (len : Nat) :
    ∀ st : CodeGenerator,
      (allocRegisterLoop len st).2 =
        { st with nextRegister := st.nextRegister + len,
                  issued := st.issued ++ List.range' st.nextRegister len } := by
  induction len with
  | zero => intro st; simp [allocRegisterLoop]
  | succ n ih =>
    intro st
    simp only [allocRegisterLoop, allocRegister]
    rw [ih]
    simp only [List.range'_succ]
    congr 1
    all_goals first
      | rfl
      | omega
      | simp

/-- C1: the Dead Code Eliminator keeps an assignment exactly when one of its
left-hand identifiers is in the liveness set.  If some left-hand identifier
is live, the statement is kept with its right-hand expression reconstructed
under the necessity flag — the expression is returned unchanged and all its
identifier occurrences are added to the liveness set; otherwise the statement
is replaced by the no-op placeholder `Statement.dummy` and the state is left
untouched. -/
theorem dce_assign_kept_iff_lhs_live :
    ∀ (place value : Expression) (s : DeadCodeEliminator) (syms : List Sym),
      placeSymbols place = some syms →
      ((∃ x ∈ syms, x ∈ s.usedVariables) →
        ∀ (value' : Expression) (s₁ : DeadCodeEliminator),
          reconstructExpression value { s with isNecessary := true } = .ok (value', s₁) →
          reconstructAssign place value s =
              .ok (.assign place value', { s₁ with isNecessary := false }) ∧
            value' = value ∧ ∀ y ∈ idsOf value, y ∈ s₁.usedVariables) ∧
      ((∀ x ∈ syms, x ∉ s.usedVariables) →
        reconstructAssign place value s = .ok (Statement.dummy, s)) := by
  intro place value s syms hsyms
  cases place with
  | identifier x =>
    simp only [placeSymbols, Option.some.injEq] at hsyms
    subst hsyms
    constructor
    · intro hex value' s₁ h₁
      obtain ⟨x', hx'mem, hx'used⟩ := hex
      simp only [List.mem_singleton] at hx'mem
      subst hx'mem
      obtain ⟨hv, _, _, hids⟩ := reconstructExpression_spec value _ _ _ h₁
      refine ⟨?_, hv, fun y hy => hids rfl y (hv ▸ hy)⟩
      simp only [reconstructAssign]
      try dsimp only
      rw [decide_eq_true hx'used]
      try dsimp only
      rw [h₁]
    · intro hall
      have hx : x ∉ s.usedVariables := hall x (List.mem_singleton_self x)
      simp only [reconstructAssign]
      try dsimp only
      rw [decide_eq_false hx]
  | tuple elements =>
    simp only [placeSymbols] at hsyms
    constructor
    · intro hex value' s₁ h₁
      obtain ⟨x, hxmem, hxused⟩ := hex
      have hany : syms.any (fun x => decide (x ∈ s.usedVariables)) = true :=
        List.any_eq_true.mpr ⟨x, hxmem, decide_eq_true hxused⟩
      obtain ⟨hv, _, _, hids⟩ := reconstructExpression_spec value _ _ _ h₁
      refine ⟨?_, hv, fun y hy => hids rfl y (hv ▸ hy)⟩
      simp only [reconstructAssign]
      try dsimp only
      rw [lhsIsUsedTuple_any elements syms s hsyms, hany]
      try dsimp only
      rw [h₁]
    · intro hall
      have hany : syms.any (fun x => decide (x ∈ s.usedVariables)) = false :=
        List.any_eq_false.mpr fun x hx => by
          simp only [decide_eq_true_eq]
          exact hall x hx
      simp only [reconstructAssign]
      try dsimp only
      rw [lhsIsUsedTuple_any elements syms s hsyms, hany]
  | access a => simp [placeSymbols] at hsyms
  | binary l r op => simp [placeSymbols] at hsyms
  | call f ext args => simp [placeSymbols] at hsyms
  | struct n m => simp [placeSymbols] at hsyms
  | err => simp [placeSymbols] at hsyms
  | literal t => simp [placeSymbols] at hsyms
  | ternary c t f => simp [placeSymbols] at hsyms
  | unary r op => simp [placeSymbols] at hsyms
  | unit => simp [placeSymbols] at hsyms

/-- Witness for C1 at a concrete kept assignment `x = a + b` with `x` live. -/
theorem dce_assign_kept_iff_lhs_live_witness :
    reconstructAssign (.identifier "x")
        (.binary (.identifier "a") (.identifier "b") .add)
        { usedVariables := ["x"], isNecessary := false } =
      .ok (.assign (.identifier "x")
             (.binary (.identifier "a") (.identifier "b") .add),
           { usedVariables := ["b", "a", "x"], isNecessary := false }) ∧
    ∀ y ∈ idsOf (.binary (.identifier "a") (.identifier "b") .add),
      y ∈ ({ usedVariables := ["b", "a", "x"],
             isNecessary := true : DeadCodeEliminator }).usedVariables := by
  have h := (dce_assign_kept_iff_lhs_live (.identifier "x")
      (.binary (.identifier "a") (.identifier "b") .add)
      { usedVariables := ["x"], isNecessary := false } ["x"] rfl).1
      ⟨"x", by simp, by simp⟩
      (.binary (.identifier "a") (.identifier "b") .add)
      { usedVariables := ["b", "a", "x"], isNecessary := true } rfl
  exact ⟨h.1, h.2.2⟩

/-- C8: the Dead Code Eliminator is idempotent on a function body — a second
run over the output of a first run (from a fresh eliminator state) succeeds
and changes nothing. -/
theorem dce_idempotent :
    ∀ (stmts out : List Statement),
      eliminateFunctionBody stmts = .ok out →
      eliminateFunctionBody out = .ok out := by
  intro stmts out h
  unfold eliminateFunctionBody at h ⊢
  rw [← reconstructStatementsRev_spec] at h ⊢
  cases h₁ : reconstructStatementsRev stmts DeadCodeEliminator.new with
  | error err => simp [h₁] at h
  | ok p =>
    obtain ⟨out₁, s₁⟩ := p
    rw [h₁] at h
    try dsimp only at h
    injection h with h'
    subst h'
    obtain ⟨_, hrerun⟩ :=
      reconstructStatementsRev_idem stmts DeadCodeEliminator.new _ _ rfl h₁
    rw [hrerun]

/-- Witness for C8 at the spec's own scenario output
`x = a + b; y = x * x; return a;` (both assignments eliminated). -/
theorem dce_idempotent_witness :
    eliminateFunctionBody
        [Statement.dummy, Statement.dummy, .ret (.identifier "a") none] =
      .ok [Statement.dummy, Statement.dummy, .ret (.identifier "a") none] :=
  dce_idempotent
    [ .assign (.identifier "x") (.binary (.identifier "a") (.identifier "b") .add),
      .assign (.identifier "y") (.binary (.identifier "x") (.identifier "x") .mul),
      .ret (.identifier "a") none ]
    [Statement.dummy, Statement.dummy, .ret (.identifier "a") none] rfl

/-- C9: the necessity flag is reset to false by every statement handler that
sets it (unconditionally), and statement reconstruction maps a flag-false
entry state to a flag-false exit state, so the flag is only ever true while a
setting statement's own sub-expressions are being reconstructed. -/
theorem dce_necessity_flag_invariant :
    (∀ variant s r, reconstructAssert variant s = .ok r →
      r.2.isNecessary = false) ∧
    (∀ mapping index amount s r,
      reconstructIncrement mapping index amount s = .ok r →
      r.2.isNecessary = false) ∧
    (∀ mapping index amount s r,
      reconstructDecrement mapping index amount s = .ok r →
      r.2.isNecessary = false) ∧
    (∀ e s r, reconstructExpressionStatement e s = .ok r →
      r.2.isNecessary = false) ∧
    (∀ e finalizeArguments s r,
      reconstructReturn e finalizeArguments s = .ok r →
      r.2.isNecessary = false) ∧
    (∀ place value s r, s.isNecessary = false →
      reconstructAssign place value s = .ok r → r.2.isNecessary = false) ∧
    (∀ st s r, s.isNecessary = false →
      reconstructStatement st s = .ok r → r.2.isNecessary = false) := by
  refine ⟨reconstructAssert_resets, reconstructIncrement_resets,
    reconstructDecrement_resets, reconstructExpressionStatement_resets,
    reconstructReturn_resets, ?_, ?_⟩
  · intro place value s r hnec h
    obtain ⟨st', s'⟩ := r
    have hdisp : reconstructStatement (.assign place value) s = .ok (st', s') := by
      simp only [reconstructStatement]
      exact h
    exact (reconstructStatement_idem _ _ _ _ hnec hdisp).1
  · intro st s r hnec h
    obtain ⟨st', s'⟩ := r
    exact (reconstructStatement_idem _ _ _ _ hnec h).1

/-- Witness for C9 at a concrete assert statement. -/
theorem dce_necessity_flag_invariant_witness :
    ((Statement.assert (.assert (.literal "true")),
      ({ usedVariables := [], isNecessary := false } : DeadCodeEliminator)) :
      Statement × DeadCodeEliminator).2.isNecessary = false :=
  dce_necessity_flag_invariant.1 (.assert (.literal "true"))
    { usedVariables := [], isNecessary := true } _ rfl

/-- C2: register monotonicity.  Every expression visit advances the counter
monotonically and issues exactly the gap-free consecutive block of
destination registers from the entry counter to the exit counter (so a whole
function body, starting from the fresh counter 0, issues `r0, r1, …` in
strictly increasing order); identifier and literal visits leave the state
untouched, and tuple and member-access visits allocate no register of their
own — their final state is exactly the state after visiting their
sub-expressions. -/
theorem codegen_register_monotonicity :
    (∀ (e : Expression) (st : CodeGenerator) (out : String × String)
        (st' : CodeGenerator), visitExpression e st = .ok (out, st') →
        st.nextRegister ≤ st'.nextRegister ∧
          st'.issued = st.issued ++
            List.range' st.nextRegister (st'.nextRegister - st.nextRegister)) ∧
    (∀ (x : Sym) (st : CodeGenerator) (out : String × String)
        (st' : CodeGenerator),
        visitExpression (.identifier x) st = .ok (out, st') → st' = st) ∧
    (∀ (text : String) (st : CodeGenerator) (out : String × String)
        (st' : CodeGenerator),
        visitExpression (.literal text) st = .ok (out, st') → st' = st) ∧
    (∀ (elements : List Expression) (st : CodeGenerator) (out : String × String)
        (st' : CodeGenerator),
        visitExpression (.tuple elements) st = .ok (out, st') →
        ∃ operands instructions,
          visitExpressionList elements st = .ok ((operands, instructions), st')) ∧
    (∀ (inner : Expression) (name : Sym) (st : CodeGenerator)
        (out : String × String) (st' : CodeGenerator),
        visitExpression (.access (.member inner name)) st = .ok (out, st') →
        ∃ operand instructions,
          visitExpression inner st = .ok ((operand, instructions), st')) := by
  refine ⟨?_, ?_, ?_, ?_, ?_⟩
  · intro e st out st' h
    obtain ⟨k, hn, hi⟩ := visitExpression_extends e st out st' h
    refine ⟨by omega, ?_⟩
    rw [hi, hn]
    have hk : st.nextRegister + k - st.nextRegister = k := by omega
    rw [hk]
  · intro x st out st' h
    simp only [visitExpression] at h
    cases h₀ : List.lookup x st.variableMapping with
    | none => simp [h₀] at h
    | some operand =>
      rw [h₀] at h
      try dsimp only at h
      injection h with h'
      injection h' with h₅ h₆
      exact h₆.symm
  · intro text st out st' h
    simp only [visitExpression] at h
    injection h with h'
    injection h' with h₅ h₆
    exact h₆.symm
  · intro elements st out st' h
    simp only [visitExpression] at h
    cases h₁ : visitExpressionList elements st with
    | error err => simp [h₁] at h
    | ok p =>
      obtain ⟨⟨operands, instructions⟩, st₁⟩ := p
      rw [h₁] at h
      try dsimp only at h
      injection h with h'
      injection h' with h₅ h₆
      subst h₆
      exact ⟨operands, instructions, rfl⟩
  · intro inner name st out st' h
    simp only [visitExpression] at h
    cases h₁ : visitExpression inner st with
    | error err => simp [h₁] at h
    | ok p =>
      obtain ⟨⟨operand, instructions⟩, st₁⟩ := p
      rw [h₁] at h
      try dsimp only at h
      injection h with h'
      injection h' with h₅ h₆
      subst h₆
      exact ⟨operand, instructions, rfl⟩

/-- Witness for C2 at a concrete binary expression from a fresh counter. -/
theorem codegen_register_monotonicity_witness :
    (CodeGenerator.fresh [] [] []).nextRegister ≤
        ({ nextRegister := 1, variableMapping := [], compositeMapping := [],
           functions := [], issued := [0] } : CodeGenerator).nextRegister ∧
      ({ nextRegister := 1, variableMapping := [], compositeMapping := [],
         functions := [], issued := [0] } : CodeGenerator).issued =
        (CodeGenerator.fresh [] [] []).issued ++
          List.range' (CodeGenerator.fresh [] [] []).nextRegister (1 - 0) :=
  codegen_register_monotonicity.1
    (.binary (.literal "1u8") (.literal "2u8") .add)
    (CodeGenerator.fresh [] [] [])
    ("r0", "    add 1u8 2u8 into r0;\n")
    { nextRegister := 1, variableMapping := [], compositeMapping := [],
      functions := [], issued := [0] } rfl

/-- C4: lowering a binary expression emits exactly the left operand's
prelude, then the right operand's prelude, then the single binary instruction
writing into the freshly allocated destination register. -/
theorem codegen_binary_evaluation_order :
    ∀ (left right : Expression) (op : BinaryOperation) (st : CodeGenerator)
      (leftOperand leftInstructions : String) (st₁ : CodeGenerator)
      (rightOperand rightInstructions : String) (st₂ : CodeGenerator),
      visitExpression left st = .ok ((leftOperand, leftInstructions), st₁) →
      visitExpression right st₁ = .ok ((rightOperand, rightInstructions), st₂) →
      visitExpression (.binary left right op) st =
        .ok (((allocRegister st₂).1,
              leftInstructions ++ rightInstructions ++
                ("    " ++ binaryOpcode op ++ " " ++ leftOperand ++ " " ++
                  rightOperand ++ " into " ++ (allocRegister st₂).1 ++ ";\n")),
             (allocRegister st₂).2) := by
  intro left right op st leftOperand leftInstructions st₁ rightOperand
    rightInstructions st₂ h₁ h₂
  simp only [visitExpression]
  rw [h₁]
  try dsimp only
  rw [h₂]

/-- Witness for C4 at concrete literal operands. -/
theorem codegen_binary_evaluation_order_witness :
    visitExpression (.binary (.literal "1u8") (.literal "2u8") .add)
        (CodeGenerator.fresh [] [] []) =
      .ok (((allocRegister (CodeGenerator.fresh [] [] [])).1,
            "" ++ "" ++
              ("    " ++ binaryOpcode .add ++ " " ++ "1u8" ++ " " ++ "2u8" ++
                " into " ++ (allocRegister (CodeGenerator.fresh [] [] [])).1 ++
                ";\n")),
           (allocRegister (CodeGenerator.fresh [] [] [])).2) :=
  codegen_binary_evaluation_order (.literal "1u8") (.literal "2u8") .add
    (CodeGenerator.fresh [] [] []) "1u8" "" (CodeGenerator.fresh [] [] [])
    "2u8" "" (CodeGenerator.fresh [] [] []) rfl rfl

/-- C5: a user-function call whose callee's declared output type is an
N-tuple with N ≥ 2 allocates exactly the N fresh consecutive destination
registers starting at the current counter (N distinct indices) and returns
their space-joined list as the value reference; a tuple output with fewer
than two elements fails, and an unresolvable callee fails. -/
theorem codegen_call_tuple_destinations :
    (∀ (functionName : Sym) (external : Option Sym)
        (arguments : List Expression) (st : CodeGenerator)
        (argumentOperands : List String) (instructions : String)
        (st₁ : CodeGenerator) (ts : List Ty),
        visitExpressionList arguments st =
            .ok ((argumentOperands, instructions), st₁) →
        List.lookup functionName st₁.functions = some (.tuple ts) →
        (2 ≤ ts.length →
          visitExpression (.call (.identifier functionName) external arguments)
              st =
            .ok ((String.intercalate " "
                    ((List.range' st₁.nextRegister ts.length).map
                      (fun n => "r" ++ toString n)),
                  instructions ++
                    ((match external with
                      | some ext => "    call " ++ ext ++ ".aleo/" ++ functionName
                      | none => "    call " ++ functionName) ++
                      String.join (argumentOperands.map (fun arg => " " ++ arg)) ++
                      " into " ++
                      String.intercalate " "
                        ((List.range' st₁.nextRegister ts.length).map
                          (fun n => "r" ++ toString n)) ++ ";\n")),
                 { st₁ with
                     nextRegister := st₁.nextRegister + ts.length,
                     issued := st₁.issued ++
                       List.range' st₁.nextRegister ts.length }) ∧
          (List.range' st₁.nextRegister ts.length).Nodup ∧
          ((List.range' st₁.nextRegister ts.length).map
            (fun n => "r" ++ toString n)).length = ts.length) ∧
        (ts.length < 2 →
          visitExpression (.call (.identifier functionName) external arguments)
              st =
            .error (.invalidTupleLength ts.length))) ∧
    (∀ (functionName : Sym) (external : Option Sym)
        (arguments : List Expression) (st : CodeGenerator)
        (argumentOperands : List String) (instructions : String)
        (st₁ : CodeGenerator),
        visitExpressionList arguments st =
            .ok ((argumentOperands, instructions), st₁) →
        List.lookup functionName st₁.functions = none →
        visitExpression (.call (.identifier functionName) external arguments)
            st =
          .error (.unknownCallee functionName)) := by
  constructor
  · intro functionName external arguments st argumentOperands instructions st₁
      ts h₁ h₂
    constructor
    · intro hlen
      refine ⟨?_, List.nodup_range' _ _, by simp⟩
      simp only [visitExpression]
      rw [h₁]
      try dsimp only
      rw [h₂]
      try dsimp only
      split
      · exfalso; omega
      · exfalso; omega
      · rw [allocRegisterLoop_names, allocRegisterLoop_state]
    · intro hlen
      simp only [visitExpression]
      rw [h₁]
      try dsimp only
      rw [h₂]
      try dsimp only
      split
      · rename_i heq
        rw [heq]
      · rename_i heq
        rw [heq]
      · rename_i len h0 h1
        have h0' : ts.length ≠ 0 := h0
        have h1' : ts.length ≠ 1 := h1
        exfalso; omega
  · intro functionName external arguments st argumentOperands instructions st₁
      h₁ h₂
    simp only [visitExpression]
    rw [h₁]
    try dsimp only
    rw [h₂]

/-- Witness for C5 at a concrete pair-returning call from a fresh counter. -/
theorem codegen_call_tuple_destinations_witness :
    visitExpression (.call (.identifier "g") none [])
        (CodeGenerator.fresh [] []
          [("g", .tuple [.identifier "u8", .identifier "u8"])]) =
      .ok ((String.intercalate " "
              ((List.range' 0 2).map (fun n => "r" ++ toString n)),
            "" ++ ("    call " ++ "g" ++
              String.join (([] : List String).map (fun arg => " " ++ arg)) ++
              " into " ++
              String.intercalate " "
                ((List.range' 0 2).map (fun n => "r" ++ toString n)) ++ ";\n")),
           { nextRegister := 0 + 2, variableMapping := [],
             compositeMapping := [],
             functions := [("g", .tuple [.identifier "u8", .identifier "u8"])],
             issued := [] ++ List.range' 0 2 }) ∧
      (List.range' 0 2).Nodup :=
  have h := (codegen_call_tuple_destinations.1 "g" none []
    (CodeGenerator.fresh [] []
      [("g", .tuple [.identifier "u8", .identifier "u8"])])
    [] ""
    (CodeGenerator.fresh [] []
      [("g", .tuple [.identifier "u8", .identifier "u8"])])
    [.identifier "u8", .identifier "u8"] rfl rfl).1 (by simp)
  ⟨h.1, h.2.1⟩

/-- C7: a member-access expression lowers to the textual concatenation
`base.field` with an empty prelude — the base expression's own prelude
instructions are discarded, while the state advanced by lowering the base
(register counter included) is kept. -/
theorem codegen_member_access_discards_prelude :
    ∀ (inner : Expression) (name : Sym) (st : CodeGenerator)
      (innerStruct innerInstructions : String) (st' : CodeGenerator),
      visitExpression inner st = .ok ((innerStruct, innerInstructions), st') →
      visitExpression (.access (.member inner name)) st =
        .ok ((innerStruct ++ "." ++ name, ""), st') := by
  intro inner name st innerStruct innerInstructions st' h
  simp only [visitExpression]
  rw [h]

/-- Witness for C7 at a base expression with a nonempty prelude that advances
the register counter. -/
theorem codegen_member_access_discards_prelude_witness :
    visitExpression
        (.access (.member (.binary (.literal "1u8") (.literal "2u8") .add) "f"))
        (CodeGenerator.fresh [] [] []) =
      .ok (("r0" ++ "." ++ "f", ""),
           { nextRegister := 1, variableMapping := [], compositeMapping := [],
             functions := [], issued := [0] }) ∧
    ("    add 1u8 2u8 into r0;\n" : String) ≠ "" :=
  ⟨codegen_member_access_discards_prelude
      (.binary (.literal "1u8") (.literal "2u8") .add) "f"
      (CodeGenerator.fresh [] [] []) "r0" "    add 1u8 2u8 into r0;\n"
      { nextRegister := 1, variableMapping := [], compositeMapping := [],
        functions := [], issued := [0] } rfl,
   by decide⟩

/-- C6 counterexample: on `BHP256::hash(v)` from a fresh counter the Code
Generator emits the single instruction `hash.bhp256 v into r0;` — the opcode
is prefixed by the called method's name, so the instruction is not the
claimed `bhp256 v into r0;`. -/
theorem codegen_bhp256_counterexample :
    visitExpression
        (.access (.associatedFunction (.identifier "BHP256") "hash"
          [.identifier "v"]))
        (CodeGenerator.fresh [("v", "v")] [] []) =
      .ok (("r0", "    hash.bhp256 v into r0;\n"),
           { nextRegister := 1, variableMapping := [("v", "v")],
             compositeMapping := [], functions := [], issued := [0] }) ∧
    ("    hash.bhp256 v into r0;\n" : String) ≠ "    bhp256 v into r0;\n" :=
  ⟨rfl, by decide⟩

/-- C6 amended: an associated-function call on the 256-bit hash type `BHP256`
through method `f` with one argument lowering to operand `v` (no prelude, no
allocation), from a fresh register counter, emits exactly one instruction —
the concatenation below, which renders as `f.bhp256 v into r0;` — and
returns the value reference `r0`.  The opcode is prefixed by the invoked
method's name `f`, not bare as the original claim stated. -/
theorem codegen_associated_function_bhp256_amended :
    ∀ (f : Sym) (arg : Expression) (v : String) (st : CodeGenerator),
      st.nextRegister = 0 →
      visitExpression arg st = .ok ((v, ""), st) →
      visitExpression
          (.access (.associatedFunction (.identifier "BHP256") f [arg])) st =
        .ok (("r0",
              "    " ++ f ++ "." ++ "bhp256" ++ " " ++ (v ++ " ") ++
                "into " ++ "r0" ++ ";\n"),
             { st with nextRegister := 1, issued := st.issued ++ [0] }) := by
  intro f arg v st hst0 harg
  simp only [visitExpression, visitExpressionList]
  rw [show coreFunctionSymbol "BHP256" = some "bhp256" from rfl]
  try dsimp only
  rw [harg]
  try dsimp only [allocRegister]
  rw [hst0]
  exact rfl

/-- Witness for the amended C6 at `BHP256::hash` with a literal argument:
the emitted instruction computes to `    hash.bhp256 v into r0;`. -/
theorem codegen_associated_function_bhp256_amended_witness :
    visitExpression
        (.access (.associatedFunction (.identifier "BHP256") "hash"
          [.literal "v"]))
        (CodeGenerator.fresh [] [] []) =
      .ok (("r0",
            "    " ++ "hash" ++ "." ++ "bhp256" ++ " " ++ ("v" ++ " ") ++
              "into " ++ "r0" ++ ";\n"),
           { nextRegister := 1, variableMapping := [], compositeMapping := [],
             functions := [], issued := [] ++ [0] }) ∧
    ("    " ++ "hash" ++ "." ++ "bhp256" ++ " " ++ ("v" ++ " ") ++
        "into " ++ "r0" ++ ";\n" : String) = "    hash.bhp256 v into r0;\n" :=
  ⟨codegen_associated_function_bhp256_amended "hash" (.literal "v") "v"
    (CodeGenerator.fresh [] [] []) rfl rfl, rfl⟩

/-- C3: the scoped-run combinator `Handler::with`.  With the closure
represented by its emission trace and returned result: a clean success (no
recorded errors) passes the value through; a success with recorded errors is
a failure carrying the recorded diagnostics in emission order; an error
result is a failure whose buffer is the recorded diagnostics followed by
that error. -/
theorem handler_with_spec :
    ∀ {T : Type} (emitted : List LeoError) (result : Except LeoError T),
      (∀ v, result = .ok v → emitted = [] →
        handlerWith emitted result = .ok v) ∧
      (∀ v, result = .ok v → emitted ≠ [] →
        handlerWith emitted result = .error emitted) ∧
      (∀ err, result = .error err →
        handlerWith emitted result = .error (emitted ++ [err])) := by
  intro T emitted result
  obtain ⟨hbuf, hcount⟩ := foldl_emitErr emitted newWithBuf
  have hcnt : (List.foldl emitErr newWithBuf emitted).count =
      min emitted.length usizeMax := by
    have h := hcount (by simp [newWithBuf, usizeMax])
    simpa [newWithBuf] using h
  refine ⟨?_, ?_, ?_⟩
  · intro v hres hemp
    subst hres; subst hemp
    rfl
  · intro v hres hne
    subst hres
    have hlen : 0 < emitted.length := List.length_pos.mpr hne
    have hM : (0 : Nat) < usizeMax := by norm_num [usizeMax]
    have hpos : 0 < (List.foldl emitErr newWithBuf emitted).count := by
      rw [hcnt]; omega
    have htrue : hadErrors (List.foldl emitErr newWithBuf emitted) = true := by
      simp only [hadErrors, errCount]
      exact decide_eq_true hpos
    simp only [handlerWith, extendIfError, htrue, if_true]
    rw [hbuf]
    simp [newWithBuf]
  · intro err hres
    subst hres
    simp only [handlerWith, extendIfError, emitErr]
    rw [hbuf]
    simp [newWithBuf]

/-- Witness for C3 at the spec's buffered-handler scenario: two diagnostics
emitted, closure returns success, overall result is a failure carrying both
diagnostics in emission order. -/
theorem handler_with_spec_witness :
    handlerWith [⟨"first error"⟩, ⟨"second error"⟩]
        (.ok (0 : Nat)) =
      .error [⟨"first error"⟩, ⟨"second error"⟩] :=
  (handler_with_spec [⟨"first error"⟩, ⟨"second error"⟩] (.ok 0)).2.1 0 rfl
    (by simp)

/-- C10: the record commitment verifier returns the converted record exactly
when the commitment recomputed from the record's serialized fields and
stored randomness equals the record's stored commitment, and fails with the
commitments-do-not-match error when the recomputation succeeds but the two
differ. -/
theorem verify_record_commitment_match :
    ∀ {TypedRecord DPCRecord Bytes Output Randomness Params : Type}
      [_inst : DecidableEq Output]
      (tryFrom : TypedRecord → Except RecordVerificationError DPCRecord)
      (toBytes : DPCRecord → Except RecordVerificationError Bytes)
      (readCommitment : DPCRecord → Except RecordVerificationError Output)
      (readRandomness : DPCRecord → Except RecordVerificationError Randomness)
      (commit : Params → Bytes → Randomness →
        Except RecordVerificationError Output)
      (systemParameters : Params) (typedRecord : TypedRecord)
      (record : DPCRecord) (recordCommitmentInput : Bytes)
      (commitment : Output) (commitmentRandomness : Randomness)
      (recordCommitment : Output),
      tryFrom typedRecord = .ok record →
      toBytes record = .ok recordCommitmentInput →
      readCommitment record = .ok commitment →
      readRandomness record = .ok commitmentRandomness →
      commit systemParameters recordCommitmentInput commitmentRandomness =
        .ok recordCommitment →
      ((recordCommitment = commitment →
        verifyRecordCommitment tryFrom toBytes readCommitment readRandomness
            commit systemParameters typedRecord = .ok record) ∧
       (recordCommitment ≠ commitment →
        verifyRecordCommitment tryFrom toBytes readCommitment readRandomness
            commit systemParameters typedRecord =
          .error .commitmentsDoNotMatch)) := by
  intro TypedRecord DPCRecord Bytes Output Randomness Params _inst tryFrom
    toBytes readCommitment readRandomness commit systemParameters typedRecord
    record recordCommitmentInput commitment commitmentRandomness
    recordCommitment h₁ h₂ h₃ h₄ h₅
  simp only [verifyRecordCommitment]
  rw [h₁]
  try dsimp only
  rw [h₂]
  try dsimp only
  rw [h₃]
  try dsimp only
  rw [h₄]
  try dsimp only
  rw [h₅]
  try dsimp only
  constructor
  · intro heq
    rw [if_pos heq]
  · intro hne
    rw [if_neg hne]

/-- Witness for C10 at a trivial concrete instantiation of the external
collaborators (matching commitments). -/
theorem verify_record_commitment_match_witness :
    verifyRecordCommitment (fun _ : Nat => Except.ok (7 : Nat))
        (fun _ => Except.ok (1 : Nat)) (fun _ => Except.ok (5 : Nat))
        (fun _ => Except.ok (2 : Nat)) (fun _ _ _ => Except.ok (5 : Nat))
        (0 : Nat) (0 : Nat) =
      .ok 7 :=
  (verify_record_commitment_match (fun _ : Nat => Except.ok (7 : Nat))
    (fun _ => Except.ok (1 : Nat)) (fun _ => Except.ok (5 : Nat))
    (fun _ => Except.ok (2 : Nat)) (fun _ _ _ => Except.ok (5 : Nat))
    0 0 7 1 5 2 5 rfl rfl rfl rfl rfl).1 rfl

end Leo
